import Mathlib

/-!
Shallow embedding of the Cetus DLMM swap SDK (sdk/swap-sdk/src) and proofs of
the spec claims about it.  Rust u64/u128 values are modelled as Nat with
explicit wrap-around (mod 2 ^ 64 / 2 ^ 128 / 2 ^ 256) exactly where the source
performs an unchecked cast or unchecked arithmetic; i32/i64 values are
modelled as Int.  Fallible Rust functions returning Result/Option are
modelled as Except SwapError / Option.
-/

namespace DlmmSwap

/-- mirrors lib.rs MAX_FEE_RATE -/
def MAX_FEE_RATE : Nat := 100000000

/-- mirrors lib.rs FEE_PRECISION -/
def FEE_PRECISION : Nat := 1000000000

/-- mirrors math/mod.rs BASIS_POINT_MAX -/
def BASIS_POINT_MAX : Nat := 10000

/-- mirrors q64x64_math.rs ONE = 1u128 << 64 -/
def ONE : Nat := 2 ^ 64

/-- mirrors math/mod.rs Rounding -/
inductive Rounding where
  | Up
  | Down
deriving DecidableEq

/-- error kinds produced on the swap path (the source uses anyhow string
errors; each constructor stands for one distinct error message). -/
inductive SwapError where
  | feeRateTooLarge
  | mathOverflow
  | priceZero
  | amountInWithFeeExceeds
deriving DecidableEq

/-- wrap an Int into the u64 range, as a Rust release-mode u64 cast or
wrapping op does -/
def wrap64 (n : Int) : Nat := (n % (2 ^ 64 : Int)).toNat

/-- mirrors full_math.rs mul_div: (x * y) / denominator on U256 intermediates
with the requested rounding; none if the denominator is zero, the U256
product overflows, or the quotient does not fit u128. -/
def mul_div (x y denominator : Nat) (rounding : Rounding) : Option Nat :=
  if denominator = 0 then none
  else
    let prod := x * y
    if 2 ^ 256 ≤ prod then none
    else
      match rounding with
      | .Up =>
        let q := (prod + denominator - 1) / denominator
        if q < 2 ^ 128 then some q else none
      | .Down =>
        let q := prod / denominator
        if q < 2 ^ 128 then some q else none

/-- mirrors dlmm_math.rs calculate_fee_inclusive (the final
Ok(r as u64) cast is the mod 2 ^ 64) -/
def calculate_fee_inclusive (amount fee_rate : Nat) : Except SwapError Nat :=
  if amount = 0 ∨ fee_rate = 0 then .ok 0
  else if FEE_PRECISION < fee_rate then .error .feeRateTooLarge
  else
    match mul_div amount fee_rate FEE_PRECISION .Up with
    | none => .error .mathOverflow
    | some r => .ok (r % 2 ^ 64)

/-- mirrors dlmm_math.rs calculate_fee_exclusive -/
def calculate_fee_exclusive (amount fee_rate : Nat) : Except SwapError Nat :=
  if amount = 0 ∨ fee_rate = 0 then .ok 0
  else if FEE_PRECISION < fee_rate then .error .feeRateTooLarge
  else
    match mul_div amount fee_rate (FEE_PRECISION - fee_rate) .Up with
    | none => .error .mathOverflow
    | some r => .ok (r % 2 ^ 64)

/-- mirrors dlmm_math.rs calculate_amount_in -/
def calculate_amount_in (amount_out price : Nat) (a2b : Bool) : Except SwapError Nat :=
  if price = 0 then .error .priceZero
  else if amount_out = 0 then .ok 0
  else
    match (if a2b then mul_div amount_out ONE price .Up
           else mul_div amount_out price ONE .Up) with
    | none => .error .mathOverflow
    | some r => if 2 ^ 64 - 1 < r then .error .mathOverflow else .ok r

/-- mirrors dlmm_math.rs calculate_amount_out -/
def calculate_amount_out (amount_in price : Nat) (a2b : Bool) : Except SwapError Nat :=
  if price = 0 then .error .priceZero
  else if amount_in = 0 then .ok 0
  else
    match (if a2b then mul_div amount_in price ONE .Down
           else mul_div amount_in ONE price .Down) with
    | none => .error .mathOverflow
    | some r => if 2 ^ 64 - 1 < r then .error .mathOverflow else .ok r

/-- mirrors bin.rs Bin -/
structure Bin where
  id : Int
  amount_a : Nat
  amount_b : Nat
  price : Nat
  liquidity_supply : Nat
  rewards_growth_global : List Nat
  fee_amount_a_growth_global : Nat
  fee_amount_b_growth_global : Nat
deriving DecidableEq

/-- mirrors impl Default for Bin -/
instance : Inhabited Bin := ⟨⟨0, 0, 0, 0, 0, [], 0, 0⟩⟩

/-- mirrors bin.rs Bin::swap_exact_amount_in; the mutated bin is returned
together with the (amount_in, amount_out, fee, protocol_fee) tuple.
Unchecked u64 arithmetic on amounts and reserves is wrapped with wrap64. -/
def Bin.swap_exact_amount_in (self : Bin) (amount_in : Nat) (a2b : Bool)
    (fee_rate protocol_fee_rate : Nat) :
    Except SwapError (Bin × Nat × Nat × Nat × Nat) :=
  if a2b then
    match calculate_fee_inclusive amount_in fee_rate with
    | .error e => .error e
    | .ok fee_amount =>
      match calculate_amount_out (wrap64 ((amount_in : Int) - (fee_amount : Int)))
          self.price a2b with
      | .error e => .error e
      | .ok amount_out =>
        let clipped : Except SwapError (Nat × Nat × Nat) :=
          match calculate_amount_in self.amount_b self.price a2b with
          | .error e => .error e
          | .ok amount_in_without_fee =>
            match calculate_fee_exclusive amount_in_without_fee fee_rate with
            | .error e => .error e
            | .ok fee2 =>
              let amount_in_with_fee :=
                wrap64 ((amount_in_without_fee : Int) + (fee2 : Int))
              if amount_in < amount_in_with_fee then .error .amountInWithFeeExceeds
              else .ok (amount_in_with_fee, self.amount_b, fee2)
        match (if amount_out ≤ self.amount_b then
                 Except.ok (amount_in, amount_out, fee_amount)
               else clipped) with
        | .error e => .error e
        | .ok (ain, aout, fee) =>
          match calculate_fee_inclusive fee protocol_fee_rate with
          | .error e => .error e
          | .ok protocol_fee =>
            .ok ({ self with
                    amount_a := wrap64 ((self.amount_a : Int) + (ain : Int) - (fee : Int)),
                    amount_b := wrap64 ((self.amount_b : Int) - (aout : Int)) },
                 ain, aout, fee, protocol_fee)
  else
    match calculate_fee_inclusive amount_in fee_rate with
    | .error e => .error e
    | .ok fee_amount =>
      match calculate_amount_out (wrap64 ((amount_in : Int) - (fee_amount : Int)))
          self.price a2b with
      | .error e => .error e
      | .ok amount_out =>
        let clipped : Except SwapError (Nat × Nat × Nat) :=
          match calculate_amount_in self.amount_a self.price a2b with
          | .error e => .error e
          | .ok amount_in_without_fee =>
            match calculate_fee_exclusive amount_in_without_fee fee_rate with
            | .error e => .error e
            | .ok fee2 =>
              let amount_in_with_fee :=
                wrap64 ((amount_in_without_fee : Int) + (fee2 : Int))
              if amount_in < amount_in_with_fee then .error .amountInWithFeeExceeds
              else .ok (amount_in_with_fee, self.amount_a, fee2)
        match (if amount_out ≤ self.amount_a then
                 Except.ok (amount_in, amount_out, fee_amount)
               else clipped) with
        | .error e => .error e
        | .ok (ain, aout, fee) =>
          match calculate_fee_inclusive fee protocol_fee_rate with
          | .error e => .error e
          | .ok protocol_fee =>
            .ok ({ self with
                    amount_a := wrap64 ((self.amount_a : Int) - (aout : Int)),
                    amount_b := wrap64 ((self.amount_b : Int) + (ain : Int) - (fee : Int)) },
                 ain, aout, fee, protocol_fee)

/-- mirrors bin.rs Bin::swap_exact_amount_out -/
def Bin.swap_exact_amount_out (self : Bin) (amount_out : Nat) (a2b : Bool)
    (fee_rate protocol_fee_rate : Nat) :
    Except SwapError (Bin × Nat × Nat × Nat × Nat) :=
  if a2b then
    let allow_amount_out := min self.amount_b amount_out
    match calculate_amount_in allow_amount_out self.price a2b with
    | .error e => .error e
    | .ok amount_in_without_fee =>
      match calculate_fee_exclusive amount_in_without_fee fee_rate with
      | .error e => .error e
      | .ok fee_amount =>
        let amount_in_with_fee :=
          wrap64 ((amount_in_without_fee : Int) + (fee_amount : Int))
        match calculate_fee_inclusive fee_amount protocol_fee_rate with
        | .error e => .error e
        | .ok protocol_fee =>
          .ok ({ self with
                  amount_a := wrap64 ((self.amount_a : Int) + (amount_in_without_fee : Int)),
                  amount_b := wrap64 ((self.amount_b : Int) - (allow_amount_out : Int)) },
               amount_in_with_fee, allow_amount_out, fee_amount, protocol_fee)
  else
    let allow_amount_out := min self.amount_a amount_out
    match calculate_amount_in allow_amount_out self.price a2b with
    | .error e => .error e
    | .ok amount_in_without_fee =>
      match calculate_fee_exclusive amount_in_without_fee fee_rate with
      | .error e => .error e
      | .ok fee_amount =>
        let amount_in_with_fee :=
          wrap64 ((amount_in_without_fee : Int) + (fee_amount : Int))
        match calculate_fee_inclusive fee_amount protocol_fee_rate with
        | .error e => .error e
        | .ok protocol_fee =>
          .ok ({ self with
                  amount_a := wrap64 ((self.amount_a : Int) - (allow_amount_out : Int)),
                  amount_b := wrap64 ((self.amount_b : Int) + (amount_in_without_fee : Int)) },
               amount_in_with_fee, allow_amount_out, fee_amount, protocol_fee)

/-- mirrors config.rs BinStepConfig (u16/u32/u64 fields as Nat) -/
structure BinStepConfig where
  bin_step : Nat
  base_factor : Nat
  filter_period : Nat
  decay_period : Nat
  reduction_factor : Nat
  variable_fee_control : Nat
  max_volatility_accumulator : Nat
  protocol_fee_rate : Nat
deriving DecidableEq

/-- mirrors config.rs VariableParameters -/
structure VariableParameters where
  volatility_accumulator : Nat
  volatility_reference : Nat
  index_reference : Int
  last_update_timestamp : Nat
  bin_step_config : BinStepConfig
deriving DecidableEq

/-- mirrors pool.rs BinSwap -/
structure BinSwap where
  bin_id : Int
  amount_in : Nat
  amount_out : Nat
  fee : Nat
  var_fee_rate : Nat
deriving DecidableEq

/-- mirrors pool.rs SwapResult -/
structure SwapResult where
  amount_in : Nat
  amount_out : Nat
  fee : Nat
  ref_fee : Nat
  protocol_fee : Nat
  steps : List BinSwap
  is_exceed : Bool
deriving DecidableEq

/-- mirrors impl Default for SwapResult -/
def SwapResult.default0 : SwapResult := ⟨0, 0, 0, 0, 0, [], false⟩

instance : Inhabited SwapResult := ⟨SwapResult.default0⟩

/-- mirrors pool.rs SwapResult::update_swap_result (u64 += is wrapping) -/
def SwapResult.update_swap_result (self : SwapResult) (swap_step : BinSwap) : SwapResult :=
  { self with
    amount_in := (self.amount_in + swap_step.amount_in) % 2 ^ 64,
    amount_out := (self.amount_out + swap_step.amount_out) % 2 ^ 64,
    fee := (self.fee + swap_step.fee) % 2 ^ 64,
    steps := self.steps ++ [swap_step] }

/-- mirrors pool.rs Pool -/
structure Pool where
  active_id : Int
  base_fee_rate : Nat
  v_parameters : VariableParameters
  bins : List Bin
deriving DecidableEq

/-- a Rust `u64 as i64` cast (wrapping reinterpretation) -/
def toI64 (n : Nat) : Int := if n < 2 ^ 63 then (n : Int) else (n : Int) - 2 ^ 64

/-- wrap an Int into the i64 range, as Rust release-mode i64 arithmetic does -/
def wrapI64 (n : Int) : Int := ((n + 2 ^ 63) % (2 ^ 64 : Int)) - 2 ^ 63

/-- mirrors pool.rs Pool::update_references (the final `as u32` casts are
mod 2 ^ 32; checked_div by BASIS_POINT_MAX cannot fail) -/
def Pool.update_references (self : Pool) (current_timestamp : Int) :
    Except SwapError Pool :=
  let s_params := self.v_parameters.bin_step_config
  let last := toI64 self.v_parameters.last_update_timestamp
  if current_timestamp ≤ last then .ok self
  else
    let elapsed := wrapI64 (current_timestamp - last)
    if (s_params.filter_period : Int) ≤ elapsed then
      if elapsed < (s_params.decay_period : Int) then
        let scaled0 := self.v_parameters.volatility_accumulator * s_params.reduction_factor
        if 2 ^ 64 ≤ scaled0 then .error .mathOverflow
        else
          .ok { self with v_parameters := { self.v_parameters with
                  index_reference := self.active_id,
                  volatility_reference := (scaled0 / BASIS_POINT_MAX) % 2 ^ 32 } }
      else
        .ok { self with v_parameters := { self.v_parameters with
                index_reference := self.active_id,
                volatility_reference := 0 } }
    else .ok self

/-- mirrors pool.rs Pool::update_volatility_accumulator (checked u64 mul/add,
final `as u32` cast is mod 2 ^ 32) -/
def Pool.update_volatility_accumulator (self : Pool) : Except SwapError Pool :=
  let max_accumulator := self.v_parameters.bin_step_config.max_volatility_accumulator
  let delta_id := (self.v_parameters.index_reference - self.active_id).natAbs
  let mulv := delta_id * BASIS_POINT_MAX
  if 2 ^ 64 ≤ mulv then .error .mathOverflow
  else
    let accumulator := self.v_parameters.volatility_reference + mulv
    if 2 ^ 64 ≤ accumulator then .error .mathOverflow
    else
      .ok { self with v_parameters := { self.v_parameters with
              volatility_accumulator := (min accumulator max_accumulator) % 2 ^ 32 } }

/-- mirrors pool.rs Pool::compute_variable_fee (checked u128 arithmetic) -/
def Pool.compute_variable_fee (self : Pool) (volatility_accumulator : Nat) :
    Except SwapError Nat :=
  let s_params := self.v_parameters.bin_step_config
  if 0 < s_params.variable_fee_control then
    let combined := volatility_accumulator * s_params.bin_step
    if 2 ^ 128 ≤ combined then .error .mathOverflow
    else
      let square := combined * combined
      if 2 ^ 128 ≤ square then .error .mathOverflow
      else
        let v_fee := s_params.variable_fee_control * square
        if 2 ^ 128 ≤ v_fee then .error .mathOverflow
        else
          let padded := v_fee + 99999999999
          if 2 ^ 128 ≤ padded then .error .mathOverflow
          else .ok (padded / 100000000000)
  else .ok 0

/-- mirrors pool.rs Pool::get_variable_fee -/
def Pool.get_variable_fee (self : Pool) : Except SwapError Nat :=
  self.compute_variable_fee self.v_parameters.volatility_accumulator

/-- mirrors pool.rs Pool::get_total_fee (the `as u64` casts are mod 2 ^ 64) -/
def Pool.get_total_fee (self : Pool) : Except SwapError (Nat × Nat) :=
  match self.get_variable_fee with
  | .error e => .error e
  | .ok variable_fee =>
    let total_fee_rate := self.base_fee_rate + variable_fee
    if 2 ^ 128 ≤ total_fee_rate then .error .mathOverflow
    else .ok ((min total_fee_rate MAX_FEE_RATE) % 2 ^ 64, variable_fee % 2 ^ 64)

/-- reading self.bins[i].id (total, with the Default bin out of range; the
source indexing is always in range on reachable states) -/
def binIdAt (bins : List Bin) (i : Nat) : Int := (bins.getD i default).id

/-- the a2b loop of pool.rs Pool::find_first_swap_bin_index -/
def findFirstA2bAux (bins : List Bin) (current_bin_index : Int) (left right : Nat) :
    Option Nat × Option Nat :=
  if h : left ≤ right then
    let mid := left + (right - left) / 2
    if binIdAt bins mid ≤ current_bin_index then
      if mid = bins.length - 1 ∨ current_bin_index < binIdAt bins (mid + 1) then
        (some mid, if 0 < mid then some (mid - 1) else none)
      else findFirstA2bAux bins current_bin_index (mid + 1) right
    else if mid = 0 then (none, none)
    else findFirstA2bAux bins current_bin_index left (mid - 1)
  else (none, none)
termination_by right + 1 - left
decreasing_by
  · have hh : (right - left) / 2 ≤ right - left := Nat.div_le_self _ _
    omega
  · have hh : (right - left) / 2 ≤ right - left := Nat.div_le_self _ _
    omega

/-- the b2a loop of pool.rs Pool::find_first_swap_bin_index -/
def findFirstB2aAux (bins : List Bin) (current_bin_index : Int) (left right : Nat) :
    Option Nat × Option Nat :=
  if h : left ≤ right then
    let mid := left + (right - left) / 2
    if current_bin_index < binIdAt bins mid then
      if mid = 0 ∨ binIdAt bins (mid - 1) ≤ current_bin_index then
        (some mid, if bins.length - 1 ≤ mid then none else some (mid + 1))
      else findFirstB2aAux bins current_bin_index left (mid - 1)
    else findFirstB2aAux bins current_bin_index (mid + 1) right
  else (none, none)
termination_by right + 1 - left
decreasing_by
  · have hh : (right - left) / 2 ≤ right - left := Nat.div_le_self _ _
    omega
  · have hh : (right - left) / 2 ≤ right - left := Nat.div_le_self _ _
    omega

/-- mirrors pool.rs Pool::find_first_swap_bin_index -/
def Pool.find_first_swap_bin_index (self : Pool) (current_bin_index : Int) (a2b : Bool) :
    Option Nat × Option Nat :=
  if self.bins.isEmpty then (none, none)
  else if a2b then findFirstA2bAux self.bins current_bin_index 0 (self.bins.length - 1)
  else findFirstB2aAux self.bins current_bin_index 0 (self.bins.length - 1)

/-- the inline next_bin_idx computation at the top of the swap loop in
pool.rs Pool::swap_in_pool -/
def nextBinIdx (a2b : Bool) (current_bin_idx len : Nat) : Option Nat :=
  if a2b then
    if 0 < current_bin_idx then some (current_bin_idx - 1) else none
  else if current_bin_idx < len - 1 then some (current_bin_idx + 1)
  else none

/-- termination measure of the swap loop: the a2b walk decrements the bin
index, the b2a walk increments it toward the end of the list -/
def loopMeasure (a2b : Bool) (opIdx : Option Nat) (len : Nat) : Nat :=
  match opIdx with
  | none => 0
  | some i => if a2b then i + 1 else (len - i) + 1

/-- the while loop of pool.rs Pool::swap_in_pool, carried state:
(pool, accumulated result, protocol_fee_acc, remaining_amount);
remaining_amount.saturating_sub is Nat subtraction,
protocol_fee_acc.saturating_add saturates at u64::MAX -/
def Pool.swapLoop (self : Pool) (a2b by_amount_in : Bool) (protocol_fee_rate : Nat)
    (op_next_bin_idx : Option Nat) (remaining_amount : Nat)
    (swap_result : SwapResult) (protocol_fee_acc : Nat) :
    Except SwapError (Pool × SwapResult × Nat × Nat) :=
  if remaining_amount = 0 then
    .ok (self, swap_result, protocol_fee_acc, remaining_amount)
  else
    match op_next_bin_idx with
    | none =>
      .ok (self, { swap_result with is_exceed := true }, protocol_fee_acc, remaining_amount)
    | some current_bin_idx =>
      let next_idx := nextBinIdx a2b current_bin_idx self.bins.length
      match hvol : self.update_volatility_accumulator with
      | .error e => .error e
      | .ok p1 =>
        match p1.get_total_fee with
        | .error e => .error e
        | .ok (fee_rate, dy_fee_rate) =>
          let cur_bin := p1.bins.getD current_bin_idx default
          match (if by_amount_in then
                   cur_bin.swap_exact_amount_in remaining_amount a2b fee_rate protocol_fee_rate
                 else
                   cur_bin.swap_exact_amount_out remaining_amount a2b fee_rate protocol_fee_rate) with
          | .error e => .error e
          | .ok (new_bin, amount_in, amount_out, fee, bin_protocol_fee) =>
            let p2 : Pool := { p1 with bins := p1.bins.set current_bin_idx new_bin }
            let step_result : BinSwap := ⟨cur_bin.id, amount_in, amount_out, fee, dy_fee_rate⟩
            let remaining2 := remaining_amount - (if by_amount_in then amount_in else amount_out)
            let acc2 := min (protocol_fee_acc + bin_protocol_fee) (2 ^ 64 - 1)
            let result2 := swap_result.update_swap_result step_result
            let p3 : Pool :=
              if 0 < remaining2 then
                match next_idx with
                | some ni => { p2 with active_id := binIdAt p2.bins ni }
                | none => p2
              else p2
            p3.swapLoop a2b by_amount_in protocol_fee_rate next_idx remaining2 result2 acc2
termination_by loopMeasure a2b op_next_bin_idx self.bins.length
decreasing_by
  have hb1 : p1.bins = self.bins := by
    simp only [Pool.update_volatility_accumulator] at hvol
    split_ifs at hvol
    injection hvol with hvol
    subst hvol
    rfl
  have hb3 : p3.bins = p2.bins := by
    simp only [p3]
    split
    · clear_value next_idx
      rcases next_idx with _ | ni <;> rfl
    · rfl
  have hlen : p3.bins.length = self.bins.length := by
    rw [hb3]
    simp only [p2]
    rw [List.length_set, hb1]
  rw [hlen]
  have hm : ∀ c l : Nat, loopMeasure a2b (nextBinIdx a2b c l) l < loopMeasure a2b (some c) l := by
    intro c l
    cases a2b with
    | false =>
      by_cases h : c < l - 1
      · simp only [loopMeasure, nextBinIdx, Bool.false_eq_true, if_neg, if_pos h, reduceIte]
        omega
      · simp only [loopMeasure, nextBinIdx, Bool.false_eq_true, if_neg h, reduceIte]
        omega
    | true =>
      by_cases h : 0 < c
      · simp only [loopMeasure, nextBinIdx, if_pos h, reduceIte]
        omega
      · simp only [loopMeasure, nextBinIdx, if_neg h, reduceIte]
        omega
  exact hm _ self.bins.length

/-- body of pool.rs Pool::swap_in_pool after the empty-pool early return:
reference update, first-bin lookup, then the loop; also returns the loop's
final remaining amount (discarded by swap_in_pool itself) -/
def Pool.swap_in_pool_aux (self : Pool) (amount : Nat) (a2b by_amount_in : Bool)
    (current_timestamp : Nat) : Except SwapError (Pool × SwapResult × Nat × Nat) :=
  match self.update_references (toI64 current_timestamp) with
  | .error e => .error e
  | .ok p1 =>
    let op_next_bin_idx := (p1.find_first_swap_bin_index p1.active_id a2b).1
    let protocol_fee_rate := p1.v_parameters.bin_step_config.protocol_fee_rate
    p1.swapLoop a2b by_amount_in protocol_fee_rate op_next_bin_idx amount
      SwapResult.default0 0

/-- mirrors pool.rs Pool::swap_in_pool -/
def Pool.swap_in_pool (self : Pool) (amount : Nat) (a2b by_amount_in : Bool)
    (current_timestamp : Nat) : Except SwapError (Pool × SwapResult) :=
  if self.bins.isEmpty then
    .ok (self, { SwapResult.default0 with is_exceed := true })
  else
    match self.swap_in_pool_aux amount a2b by_amount_in current_timestamp with
    | .error e => .error e
    | .ok (p2, swap_result, protocol_fee_acc, _) =>
      .ok ({ p2 with v_parameters :=
               { p2.v_parameters with last_update_timestamp := current_timestamp } },
           { swap_result with protocol_fee := protocol_fee_acc })

/-- mirrors pool.rs Pool::swap_exact_amount_in -/
def Pool.swap_exact_amount_in (self : Pool) (amount_in : Nat) (a2b : Bool)
    (current_timestamp : Nat) : Except SwapError (Pool × SwapResult) :=
  self.swap_in_pool amount_in a2b true current_timestamp

/-- mirrors pool.rs Pool::swap_exact_amount_out -/
def Pool.swap_exact_amount_out (self : Pool) (amount_out : Nat) (a2b : Bool)
    (current_timestamp : Nat) : Except SwapError (Pool × SwapResult) :=
  self.swap_in_pool amount_out a2b false current_timestamp

/-- concrete bin from the bin.rs unit test -/
def exampleBin : Bin := ⟨0, 1000000, 500000, 2 ^ 64, 0, [], 0, 0⟩

/-- exampleBin after the bin.rs unit-test swap -/
def exampleBinAfter : Bin := ⟨0, 1099970, 400030, 2 ^ 64, 0, [], 0, 0⟩

/-- a bin whose b-side reserve is empty -/
def zeroReserveBin : Bin := ⟨0, 1000000, 0, 2 ^ 64, 0, [], 0, 0⟩

/-- the BinStepConfig from the pool.rs unit test -/
def exampleConfig : BinStepConfig := ⟨25, 1, 60, 600, 9000, 0, 1000000, 30000⟩

/-- the two-bin pool from the pool.rs unit test -/
def examplePool : Pool :=
  ⟨0, 30000, ⟨0, 0, 0, 0, exampleConfig⟩,
    [⟨0, 1000000, 500000, 2 ^ 64, 0, [], 0, 0⟩,
     ⟨1, 1000000, 2000000, 2 ^ 64 + 1000, 0, [], 0, 0⟩]⟩

/-- a pool with no bins -/
def emptyPool : Pool := ⟨0, 30000, ⟨0, 0, 0, 0, exampleConfig⟩, []⟩

/-- a one-bin pool whose stored last_update_timestamp is 10 -/
def stalePool : Pool :=
  ⟨0, 30000, ⟨0, 0, 0, 10, exampleConfig⟩, [⟨0, 1000000, 500000, 2 ^ 64, 0, [], 0, 0⟩]⟩

/-- stalePool after a successful zero-amount swap at timestamp 5 -/
def stalePoolAfter : Pool :=
  ⟨0, 30000, ⟨0, 0, 0, 5, exampleConfig⟩, [⟨0, 1000000, 500000, 2 ^ 64, 0, [], 0, 0⟩]⟩

/-- examplePool state produced by the loop of the pool.rs unit-test swap,
before the final timestamp write -/
def examplePoolMid : Pool :=
  ⟨0, 30000, ⟨0, 0, 0, 0, exampleConfig⟩,
    [⟨0, 1199994, 300006, 2 ^ 64, 0, [], 0, 0⟩,
     ⟨1, 1000000, 2000000, 2 ^ 64 + 1000, 0, [], 0, 0⟩]⟩

/-- examplePool after the pool.rs unit-test swap at timestamp 10 -/
def examplePoolAfter : Pool :=
  ⟨0, 30000, ⟨0, 0, 0, 10, exampleConfig⟩,
    [⟨0, 1199994, 300006, 2 ^ 64, 0, [], 0, 0⟩,
     ⟨1, 1000000, 2000000, 2 ^ 64 + 1000, 0, [], 0, 0⟩]⟩

/-- the swap loop outcome of the pool.rs unit-test swap (one step, not
exceeded), before the protocol fee is recorded -/
def exampleLoopResult : SwapResult :=
  ⟨200000, 199994, 6, 0, 0, [⟨0, 200000, 199994, 6, 0⟩], false⟩

/-- the result of the pool.rs unit-test swap -/
def exampleSwapResult : SwapResult :=
  ⟨200000, 199994, 6, 0, 1, [⟨0, 200000, 199994, 6, 0⟩], false⟩

/-- claim statement shape for C6: the sign of the fee returned by a
successful single-bin exact-in swap -/
def feeSignSpec (bin : Bin) (amount : Nat) (a2b : Bool) (fee_rate fee : Nat) : Prop :=
  ((fee_rate = 0 ∨ amount = 0) → fee = 0) ∧
  (0 < fee_rate → 0 < amount →
    0 < (if a2b then bin.amount_b else bin.amount_a) → 0 < fee)

/-- claim statement shape for C8 (a2b direction): the returned index is the
bin with the greatest id not exceeding active_id, or none when every bin id
exceeds active_id -/
def greatestLeSpec (bins : List Bin) (active : Int) (r : Option Nat) : Prop :=
  match r with
  | some i => i < bins.length ∧ binIdAt bins i ≤ active ∧
      ∀ j, j < bins.length → binIdAt bins j ≤ active → j ≤ i
  | none => ∀ j, j < bins.length → active < binIdAt bins j

/-- claim statement shape for C8 (b2a direction): the returned index is the
bin with the smallest id strictly exceeding active_id, or none when no bin
id exceeds active_id -/
def leastGtSpec (bins : List Bin) (active : Int) (r : Option Nat) : Prop :=
  match r with
  | some i => i < bins.length ∧ active < binIdAt bins i ∧
      ∀ j, j < bins.length → active < binIdAt bins j → i ≤ j
  | none => ∀ j, j < bins.length → binIdAt bins j ≤ active

/-- index budget of the remaining swap loop starting at opIdx (claim C4) -/
def idxBound (a2b : Bool) (opIdx : Option Nat) (len : Nat) : Nat :=
  match opIdx with
  | none => 0
  | some i => if a2b then i + 1 else len - i

/-- indices the remaining swap loop starting at opIdx may still visit
(claim C4) -/
def inIdxRange (a2b : Bool) (opIdx : Option Nat) (k : Nat) : Prop :=
  match opIdx with
  | none => False
  | some i => if a2b then k ≤ i else i ≤ k

/-- claim statement shape for C3: rounding-direction contract of mul_div -/
def mulDivSpec (x y d q : Nat) (r : Rounding) : Prop :=
  (r = .Up → (x : ℚ) * y / d ≤ q) ∧
  (r = .Down → (q : ℚ) ≤ (x : ℚ) * y / d) ∧
  (d ∣ x * y → q * d = x * y)

section ArithmeticLemmas

theorem ceil_le_iff {a d k : Nat} (hd : 0 < d) : (a + d - 1) / d ≤ k ↔ a ≤ d * k := by
  rw [Nat.div_le_iff_le_mul_add_pred hd]
  omega

theorem le_mul_ceil (a d : Nat) (hd : 0 < d) : a ≤ d * ((a + d - 1) / d) :=
  (ceil_le_iff hd).mp le_rfl

theorem ceil_pos {a d : Nat} (hd : 0 < d) (ha : 0 < a) : 0 < (a + d - 1) / d :=
  (Nat.le_div_iff_mul_le hd).mpr (by omega)

theorem wrap64_lt (n : Int) : wrap64 n < 2 ^ 64 := by
  unfold wrap64
  have h1 := Int.emod_lt_of_pos n (show (0 : Int) < 2 ^ 64 by norm_num)
  have h2 := Int.emod_nonneg n (show (2 ^ 64 : Int) ≠ 0 by norm_num)
  omega

theorem wrap64_sub_eq {a b : Nat} (hb : b ≤ a) (ha : a < 2 ^ 64) :
    wrap64 ((a : Int) - b) = a - b := by
  unfold wrap64
  rw [Int.emod_eq_of_lt (by omega) (by push_cast; omega)]
  omega

theorem wrap64_add_eq {a b : Nat} (h : a + b < 2 ^ 64) :
    wrap64 ((a : Int) + b) = a + b := by
  unfold wrap64
  rw [Int.emod_eq_of_lt (by omega) (by push_cast; omega)]
  omega

end ArithmeticLemmas

section MulDivLemmas

theorem mul_div_up_some {x y d q : Nat} (h : mul_div x y d .Up = some q) :
    d ≠ 0 ∧ q = (x * y + d - 1) / d ∧ q < 2 ^ 128 := by
  simp only [mul_div] at h
  split_ifs at h with h1 h2 h3
  injection h with h
  exact ⟨h1, h.symm, h ▸ h3⟩

theorem mul_div_down_some {x y d q : Nat} (h : mul_div x y d .Down = some q) :
    d ≠ 0 ∧ q = x * y / d ∧ q < 2 ^ 128 := by
  simp only [mul_div] at h
  split_ifs at h with h1 h2 h3
  injection h with h
  exact ⟨h1, h.symm, h ▸ h3⟩

end MulDivLemmas

/-- C3: mul_div with rounding Up returns a value that is greater than or equal
to the exact rational x * y / d, with rounding Down less than or equal, and in
both modes the result times d recovers x * y exactly whenever d divides x * y. -/
theorem c3_mul_div_rounding (x y d q : Nat) (r : Rounding) (hd : d ≠ 0)
    (h : mul_div x y d r = some q) : mulDivSpec x y d q r := by
  have hd0 : 0 < d := Nat.pos_of_ne_zero hd
  have hdq : (0 : ℚ) < (d : ℚ) := by exact_mod_cast hd0
  cases r with
  | Up =>
    obtain ⟨-, hq, -⟩ := mul_div_up_some h
    refine ⟨fun _ => ?_, fun hr => ?_, fun hdvd => ?_⟩
    · rw [div_le_iff hdq]
      have h2 := le_mul_ceil (x * y) d hd0
      rw [← hq] at h2
      have hle : x * y ≤ q * d := by
        rw [Nat.mul_comm q d]
        exact h2
      exact_mod_cast hle
    · cases hr
    · obtain ⟨c, hc⟩ := hdvd
      rw [hq, hc]
      have he : (d * c + d - 1) / d = c := by
        have hsub : d * c + d - 1 = d * c + (d - 1) := by omega
        rw [hsub, Nat.mul_add_div hd0, Nat.div_eq_of_lt (by omega)]
        omega
      rw [he, Nat.mul_comm]
  | Down =>
    obtain ⟨-, hq, -⟩ := mul_div_down_some h
    refine ⟨fun hr => ?_, fun _ => ?_, fun hdvd => ?_⟩
    · cases hr
    · rw [le_div_iff hdq]
      have hle : q * d ≤ x * y := by
        rw [hq]
        exact Nat.div_mul_le_self (x * y) d
      exact_mod_cast hle
    · rw [hq]
      exact Nat.div_mul_cancel hdvd

/-- C3 witness at x = 7, y = 5, d = 3, rounding Up (result 12). -/
theorem c3_mul_div_rounding_witness : mulDivSpec 7 5 3 12 .Up :=
  c3_mul_div_rounding 7 5 3 12 .Up (by decide) rfl

section FeeFunctionLemmas

theorem calculate_fee_inclusive_ok_cases {amount fee_rate fee : Nat}
    (h : calculate_fee_inclusive amount fee_rate = .ok fee) :
    ((amount = 0 ∨ fee_rate = 0) ∧ fee = 0) ∨
    (0 < amount ∧ 0 < fee_rate ∧ fee_rate ≤ FEE_PRECISION ∧
      fee = ((amount * fee_rate + FEE_PRECISION - 1) / FEE_PRECISION) % 2 ^ 64) := by
  unfold calculate_fee_inclusive at h
  split_ifs at h with h1 h2
  · left
    injection h with h
    exact ⟨h1, h.symm⟩
  · right
    rcases hm : mul_div amount fee_rate FEE_PRECISION .Up with _ | q
    · rw [hm] at h
      cases h
    · rw [hm] at h
      injection h with h
      obtain ⟨-, hq, -⟩ := mul_div_up_some hm
      push_neg at h1
      exact ⟨Nat.pos_of_ne_zero h1.1, Nat.pos_of_ne_zero h1.2, by omega, by rw [← h, hq]⟩

theorem calculate_fee_exclusive_ok_cases {amount fee_rate fee : Nat}
    (h : calculate_fee_exclusive amount fee_rate = .ok fee) :
    ((amount = 0 ∨ fee_rate = 0) ∧ fee = 0) ∨
    (0 < amount ∧ 0 < fee_rate ∧ fee_rate < FEE_PRECISION ∧
      fee = ((amount * fee_rate + (FEE_PRECISION - fee_rate) - 1) /
        (FEE_PRECISION - fee_rate)) % 2 ^ 64) := by
  unfold calculate_fee_exclusive at h
  split_ifs at h with h1 h2
  · left
    injection h with h
    exact ⟨h1, h.symm⟩
  · right
    rcases hm : mul_div amount fee_rate (FEE_PRECISION - fee_rate) .Up with _ | q
    · rw [hm] at h
      cases h
    · rw [hm] at h
      injection h with h
      obtain ⟨hd, hq, -⟩ := mul_div_up_some hm
      push_neg at h1
      refine ⟨Nat.pos_of_ne_zero h1.1, Nat.pos_of_ne_zero h1.2, by omega, by rw [← h, hq]⟩

theorem calculate_amount_in_a2b_ok_cases {ao price q : Nat}
    (h : calculate_amount_in ao price true = .ok q) :
    0 < price ∧ ((ao = 0 ∧ q = 0) ∨
      (0 < ao ∧ q ≤ 2 ^ 64 - 1 ∧ q = (ao * ONE + price - 1) / price)) := by
  unfold calculate_amount_in at h
  by_cases hp : price = 0
  · rw [if_pos hp] at h
    cases h
  · rw [if_neg hp] at h
    by_cases h0 : ao = 0
    · rw [if_pos h0] at h
      injection h with h
      exact ⟨Nat.pos_of_ne_zero hp, Or.inl ⟨h0, h.symm⟩⟩
    · rw [if_neg h0] at h
      refine ⟨Nat.pos_of_ne_zero hp, Or.inr ?_⟩
      rcases hm : mul_div ao ONE price .Up with _ | q0
      · rw [hm] at h
        cases h
      · rw [hm] at h
        have h2 : (if 2 ^ 64 - 1 < q0 then (Except.error SwapError.mathOverflow : Except SwapError Nat)
            else .ok q0) = .ok q := h
        split_ifs at h2 with h3
        injection h2 with h2
        obtain ⟨-, hq, -⟩ := mul_div_up_some hm
        subst h2
        exact ⟨Nat.pos_of_ne_zero h0, by omega, hq⟩

theorem calculate_amount_in_b2a_ok_cases {ao price q : Nat}
    (h : calculate_amount_in ao price false = .ok q) :
    0 < price ∧ ((ao = 0 ∧ q = 0) ∨
      (0 < ao ∧ q ≤ 2 ^ 64 - 1 ∧ q = (ao * price + ONE - 1) / ONE)) := by
  unfold calculate_amount_in at h
  by_cases hp : price = 0
  · rw [if_pos hp] at h
    cases h
  · rw [if_neg hp] at h
    by_cases h0 : ao = 0
    · rw [if_pos h0] at h
      injection h with h
      exact ⟨Nat.pos_of_ne_zero hp, Or.inl ⟨h0, h.symm⟩⟩
    · rw [if_neg h0] at h
      refine ⟨Nat.pos_of_ne_zero hp, Or.inr ?_⟩
      rcases hm : mul_div ao price ONE .Up with _ | q0
      · rw [hm] at h
        cases h
      · rw [hm] at h
        have h2 : (if 2 ^ 64 - 1 < q0 then (Except.error SwapError.mathOverflow : Except SwapError Nat)
            else .ok q0) = .ok q := h
        split_ifs at h2 with h3
        injection h2 with h2
        obtain ⟨-, hq, -⟩ := mul_div_up_some hm
        subst h2
        exact ⟨Nat.pos_of_ne_zero h0, by omega, hq⟩

theorem calculate_amount_out_a2b_ok_cases {ao price q : Nat}
    (h : calculate_amount_out ao price true = .ok q) :
    0 < price ∧ ((ao = 0 ∧ q = 0) ∨
      (0 < ao ∧ q ≤ 2 ^ 64 - 1 ∧ q = ao * price / ONE)) := by
  unfold calculate_amount_out at h
  by_cases hp : price = 0
  · rw [if_pos hp] at h
    cases h
  · rw [if_neg hp] at h
    by_cases h0 : ao = 0
    · rw [if_pos h0] at h
      injection h with h
      exact ⟨Nat.pos_of_ne_zero hp, Or.inl ⟨h0, h.symm⟩⟩
    · rw [if_neg h0] at h
      refine ⟨Nat.pos_of_ne_zero hp, Or.inr ?_⟩
      rcases hm : mul_div ao price ONE .Down with _ | q0
      · rw [hm] at h
        cases h
      · rw [hm] at h
        have h2 : (if 2 ^ 64 - 1 < q0 then (Except.error SwapError.mathOverflow : Except SwapError Nat)
            else .ok q0) = .ok q := h
        split_ifs at h2 with h3
        injection h2 with h2
        obtain ⟨-, hq, -⟩ := mul_div_down_some hm
        subst h2
        exact ⟨Nat.pos_of_ne_zero h0, by omega, hq⟩

theorem calculate_amount_out_b2a_ok_cases {ao price q : Nat}
    (h : calculate_amount_out ao price false = .ok q) :
    0 < price ∧ ((ao = 0 ∧ q = 0) ∨
      (0 < ao ∧ q ≤ 2 ^ 64 - 1 ∧ q = ao * ONE / price)) := by
  unfold calculate_amount_out at h
  by_cases hp : price = 0
  · rw [if_pos hp] at h
    cases h
  · rw [if_neg hp] at h
    by_cases h0 : ao = 0
    · rw [if_pos h0] at h
      injection h with h
      exact ⟨Nat.pos_of_ne_zero hp, Or.inl ⟨h0, h.symm⟩⟩
    · rw [if_neg h0] at h
      refine ⟨Nat.pos_of_ne_zero hp, Or.inr ?_⟩
      rcases hm : mul_div ao ONE price .Down with _ | q0
      · rw [hm] at h
        cases h
      · rw [hm] at h
        have h2 : (if 2 ^ 64 - 1 < q0 then (Except.error SwapError.mathOverflow : Except SwapError Nat)
            else .ok q0) = .ok q := h
        split_ifs at h2 with h3
        injection h2 with h2
        obtain ⟨-, hq, -⟩ := mul_div_down_some hm
        subst h2
        exact ⟨Nat.pos_of_ne_zero h0, by omega, hq⟩

/-- the inclusive fee never exceeds the amount it is charged on -/
theorem calculate_fee_inclusive_le {amount fee_rate fee : Nat}
    (h : calculate_fee_inclusive amount fee_rate = .ok fee) : fee ≤ amount := by
  rcases calculate_fee_inclusive_ok_cases h with ⟨-, hf⟩ | ⟨ha, hf, hfr, hf_eq⟩
  · omega
  · have hP : 0 < FEE_PRECISION := by decide
    have hle : (amount * fee_rate + FEE_PRECISION - 1) / FEE_PRECISION ≤ amount := by
      rw [ceil_le_iff hP]
      calc amount * fee_rate ≤ amount * FEE_PRECISION := Nat.mul_le_mul_left amount hfr
        _ = FEE_PRECISION * amount := Nat.mul_comm ..
    calc fee ≤ (amount * fee_rate + FEE_PRECISION - 1) / FEE_PRECISION := hf_eq ▸ Nat.mod_le ..
      _ ≤ amount := hle

end FeeFunctionLemmas

/-- C10: with fee_rate at most FEE_PRECISION, a successful
calculate_fee_inclusive returns a fee of at most amount, so the u64
subtraction amount_in - fee_amount inside Bin::swap_exact_amount_in cannot
underflow. -/
theorem c10_fee_le_amount (amount fee_rate fee : Nat)
    (hfr : fee_rate ≤ FEE_PRECISION)
    (h : calculate_fee_inclusive amount fee_rate = .ok fee) : fee ≤ amount :=
  calculate_fee_inclusive_le h

/-- C10 witness at amount = 100, fee_rate = 1000 (fee 1). -/
theorem c10_fee_le_amount_witness :
    calculate_fee_inclusive 100 1000 = .ok 1 ∧ (1 : Nat) ≤ 100 :=
  ⟨rfl, c10_fee_le_amount 100 1000 1 (by decide) rfl⟩

/-- C5 counterexample: with amount = 0 the zero-amount early return fires
before the fee-rate domain check, so an out-of-range fee_rate
(FEE_PRECISION + 1) is accepted and Ok(0) is returned instead of an error. -/
theorem c5_counterexample :
    calculate_fee_inclusive 0 (FEE_PRECISION + 1) = .ok 0 ∧
    calculate_fee_exclusive 0 (FEE_PRECISION + 1) = .ok 0 ∧
    FEE_PRECISION < FEE_PRECISION + 1 :=
  ⟨rfl, rfl, Nat.lt_succ_self _⟩

/-- C5 (amended): for every positive amount and every fee_rate strictly
greater than FEE_PRECISION, both fee computations reject the fee rate with
an error (they are not clamped); with amount = 0 they return Ok(0) instead. -/
theorem c5_fee_rate_rejected (amount fee_rate : Nat) (ha : 0 < amount)
    (hf : FEE_PRECISION < fee_rate) :
    calculate_fee_inclusive amount fee_rate = .error .feeRateTooLarge ∧
    calculate_fee_exclusive amount fee_rate = .error .feeRateTooLarge := by
  have h1 : ¬(amount = 0 ∨ fee_rate = 0) := by
    have : 0 < FEE_PRECISION := by decide
    omega
  constructor
  · unfold calculate_fee_inclusive
    rw [if_neg h1, if_pos hf]
  · unfold calculate_fee_exclusive
    rw [if_neg h1, if_pos hf]

/-- C5 witness at amount = 1, fee_rate = FEE_PRECISION + 1. -/
theorem c5_fee_rate_rejected_witness :
    calculate_fee_inclusive 1 (FEE_PRECISION + 1) = .error .feeRateTooLarge ∧
    calculate_fee_exclusive 1 (FEE_PRECISION + 1) = .error .feeRateTooLarge :=
  c5_fee_rate_rejected 1 (FEE_PRECISION + 1) (by decide) (Nat.lt_succ_self _)

/-- C9 counterexample: calculate_amount_in(0, price, a2b) does not return 0
for every price: at price = 0 it returns the zero-price error (the price
check precedes the zero-amount early return). -/
theorem c9_counterexample :
    calculate_amount_in 0 0 true = .error .priceZero ∧
    calculate_amount_in 0 0 true ≠ .ok 0 := by
  refine ⟨rfl, fun h => ?_⟩
  rw [show calculate_amount_in 0 0 true = .error .priceZero from rfl] at h
  exact Except.noConfusion h

/-- C9 (amended): calculate_amount_in(0, price, a2b) returns 0 for every
nonzero price and both directions, and
calculate_amount_in(1000000, 2 ^ 64, true) returns exactly 1000000. -/
theorem c9_amount_in_values (price : Nat) (a2b : Bool) (hp : price ≠ 0) :
    calculate_amount_in 0 price a2b = .ok 0 ∧
    calculate_amount_in 1000000 (2 ^ 64) true = .ok 1000000 := by
  constructor
  · unfold calculate_amount_in
    rw [if_neg hp]
    rfl
  · rfl

/-- C9 witness at price = 5, direction a2b. -/
theorem c9_amount_in_values_witness :
    calculate_amount_in 0 5 true = .ok 0 ∧
    calculate_amount_in 1000000 (2 ^ 64) true = .ok 1000000 :=
  c9_amount_in_values 5 true (by decide)

section BinSwapLemmas

theorem swap_in_a2b_ok_cases {bin bin2 : Bin} {amount fr pfr ain aout fee pf : Nat}
    (h : bin.swap_exact_amount_in amount true fr pfr = .ok (bin2, ain, aout, fee, pf)) :
    ∃ F ao0,
      calculate_fee_inclusive amount fr = .ok F ∧
      calculate_amount_out (wrap64 ((amount : Int) - (F : Int))) bin.price true = .ok ao0 ∧
      calculate_fee_inclusive fee pfr = .ok pf ∧
      bin2 = { bin with
                amount_a := wrap64 ((bin.amount_a : Int) + (ain : Int) - (fee : Int)),
                amount_b := wrap64 ((bin.amount_b : Int) - (aout : Int)) } ∧
      ((ao0 ≤ bin.amount_b ∧ ain = amount ∧ aout = ao0 ∧ fee = F) ∨
       (bin.amount_b < ao0 ∧ ∃ aiwf,
          calculate_amount_in bin.amount_b bin.price true = .ok aiwf ∧
          calculate_fee_exclusive aiwf fr = .ok fee ∧
          ain = wrap64 ((aiwf : Int) + (fee : Int)) ∧ ain ≤ amount ∧
          aout = bin.amount_b)) := by
  unfold Bin.swap_exact_amount_in at h
  simp only [reduceIte] at h
  rcases hF : calculate_fee_inclusive amount fr with e | F
  · rw [hF] at h
    cases h
  · rw [hF] at h
    dsimp only at h
    rcases hO : calculate_amount_out (wrap64 ((amount : Int) - (F : Int)))
        bin.price true with e | ao0
    · rw [hO] at h
      cases h
    · rw [hO] at h
      dsimp only at h
      by_cases hle : ao0 ≤ bin.amount_b
      · rw [if_pos hle] at h
        dsimp only at h
        rcases hP : calculate_fee_inclusive F pfr with e | pf0
        · rw [hP] at h
          cases h
        · rw [hP] at h
          dsimp only at h
          injection h with h
          injection h with h1 h
          injection h with h2 h
          injection h with h3 h
          injection h with h4 h5
          subst h1
          subst h2
          subst h3
          subst h4
          subst h5
          exact ⟨F, ao0, rfl, hO, hP, rfl, Or.inl ⟨hle, rfl, rfl, rfl⟩⟩
      · rw [if_neg hle] at h
        rcases hai : calculate_amount_in bin.amount_b bin.price true with e | aiwf
        · rw [hai] at h
          cases h
        · rw [hai] at h
          dsimp only at h
          rcases hfe : calculate_fee_exclusive aiwf fr with e | fee2
          · rw [hfe] at h
            cases h
          · rw [hfe] at h
            dsimp only at h
            by_cases hgt : amount < wrap64 ((aiwf : Int) + (fee2 : Int))
            · rw [if_pos hgt] at h
              cases h
            · rw [if_neg hgt] at h
              dsimp only at h
              rcases hP : calculate_fee_inclusive fee2 pfr with e | pf0
              · rw [hP] at h
                cases h
              · rw [hP] at h
                dsimp only at h
                injection h with h
                injection h with h1 h
                injection h with h2 h
                injection h with h3 h
                injection h with h4 h5
                subst h1
                subst h2
                subst h3
                subst h4
                subst h5
                exact ⟨F, ao0, rfl, hO, hP, rfl,
                  Or.inr ⟨by omega, aiwf, rfl, hfe, rfl, by omega, rfl⟩⟩

theorem swap_in_b2a_ok_cases {bin bin2 : Bin} {amount fr pfr ain aout fee pf : Nat}
    (h : bin.swap_exact_amount_in amount false fr pfr = .ok (bin2, ain, aout, fee, pf)) :
    ∃ F ao0,
      calculate_fee_inclusive amount fr = .ok F ∧
      calculate_amount_out (wrap64 ((amount : Int) - (F : Int))) bin.price false = .ok ao0 ∧
      calculate_fee_inclusive fee pfr = .ok pf ∧
      bin2 = { bin with
                amount_a := wrap64 ((bin.amount_a : Int) - (aout : Int)),
                amount_b := wrap64 ((bin.amount_b : Int) + (ain : Int) - (fee : Int)) } ∧
      ((ao0 ≤ bin.amount_a ∧ ain = amount ∧ aout = ao0 ∧ fee = F) ∨
       (bin.amount_a < ao0 ∧ ∃ aiwf,
          calculate_amount_in bin.amount_a bin.price false = .ok aiwf ∧
          calculate_fee_exclusive aiwf fr = .ok fee ∧
          ain = wrap64 ((aiwf : Int) + (fee : Int)) ∧ ain ≤ amount ∧
          aout = bin.amount_a)) := by
  unfold Bin.swap_exact_amount_in at h
  simp only [reduceIte] at h
  rcases hF : calculate_fee_inclusive amount fr with e | F
  · rw [hF] at h
    cases h
  · rw [hF] at h
    dsimp only at h
    rcases hO : calculate_amount_out (wrap64 ((amount : Int) - (F : Int)))
        bin.price false with e | ao0
    · rw [hO] at h
      cases h
    · rw [hO] at h
      dsimp only at h
      by_cases hle : ao0 ≤ bin.amount_a
      · rw [if_pos hle] at h
        dsimp only at h
        rcases hP : calculate_fee_inclusive F pfr with e | pf0
        · rw [hP] at h
          cases h
        · rw [hP] at h
          dsimp only at h
          injection h with h
          injection h with h1 h
          injection h with h2 h
          injection h with h3 h
          injection h with h4 h5
          subst h1
          subst h2
          subst h3
          subst h4
          subst h5
          exact ⟨F, ao0, rfl, hO, hP, rfl, Or.inl ⟨hle, rfl, rfl, rfl⟩⟩
      · rw [if_neg hle] at h
        rcases hai : calculate_amount_in bin.amount_a bin.price false with e | aiwf
        · rw [hai] at h
          cases h
        · rw [hai] at h
          dsimp only at h
          rcases hfe : calculate_fee_exclusive aiwf fr with e | fee2
          · rw [hfe] at h
            cases h
          · rw [hfe] at h
            dsimp only at h
            by_cases hgt : amount < wrap64 ((aiwf : Int) + (fee2 : Int))
            · rw [if_pos hgt] at h
              cases h
            · rw [if_neg hgt] at h
              dsimp only at h
              rcases hP : calculate_fee_inclusive fee2 pfr with e | pf0
              · rw [hP] at h
                cases h
              · rw [hP] at h
                dsimp only at h
                injection h with h
                injection h with h1 h
                injection h with h2 h
                injection h with h3 h
                injection h with h4 h5
                subst h1
                subst h2
                subst h3
                subst h4
                subst h5
                exact ⟨F, ao0, rfl, hO, hP, rfl,
                  Or.inr ⟨by omega, aiwf, rfl, hfe, rfl, by omega, rfl⟩⟩

theorem swap_out_a2b_ok_cases {bin bin2 : Bin} {amount fr pfr ain aout fee pf : Nat}
    (h : bin.swap_exact_amount_out amount true fr pfr = .ok (bin2, ain, aout, fee, pf)) :
    ∃ aiwf,
      calculate_amount_in (min bin.amount_b amount) bin.price true = .ok aiwf ∧
      calculate_fee_exclusive aiwf fr = .ok fee ∧
      calculate_fee_inclusive fee pfr = .ok pf ∧
      ain = wrap64 ((aiwf : Int) + (fee : Int)) ∧
      aout = min bin.amount_b amount ∧
      bin2 = { bin with
                amount_a := wrap64 ((bin.amount_a : Int) + (aiwf : Int)),
                amount_b := wrap64 ((bin.amount_b : Int) - (aout : Int)) } := by
  unfold Bin.swap_exact_amount_out at h
  simp only [reduceIte] at h
  rcases hai : calculate_amount_in (min bin.amount_b amount) bin.price true with e | aiwf
  · rw [hai] at h
    cases h
  · rw [hai] at h
    dsimp only at h
    rcases hfe : calculate_fee_exclusive aiwf fr with e | fee2
    · rw [hfe] at h
      cases h
    · rw [hfe] at h
      dsimp only at h
      rcases hP : calculate_fee_inclusive fee2 pfr with e | pf0
      · rw [hP] at h
        cases h
      · rw [hP] at h
        dsimp only at h
        injection h with h
        injection h with h1 h
        injection h with h2 h
        injection h with h3 h
        injection h with h4 h5
        subst h1
        subst h2
        subst h3
        subst h4
        subst h5
        exact ⟨aiwf, rfl, hfe, hP, rfl, rfl, rfl⟩

theorem swap_out_b2a_ok_cases {bin bin2 : Bin} {amount fr pfr ain aout fee pf : Nat}
    (h : bin.swap_exact_amount_out amount false fr pfr = .ok (bin2, ain, aout, fee, pf)) :
    ∃ aiwf,
      calculate_amount_in (min bin.amount_a amount) bin.price false = .ok aiwf ∧
      calculate_fee_exclusive aiwf fr = .ok fee ∧
      calculate_fee_inclusive fee pfr = .ok pf ∧
      ain = wrap64 ((aiwf : Int) + (fee : Int)) ∧
      aout = min bin.amount_a amount ∧
      bin2 = { bin with
                amount_a := wrap64 ((bin.amount_a : Int) - (aout : Int)),
                amount_b := wrap64 ((bin.amount_b : Int) + (aiwf : Int)) } := by
  unfold Bin.swap_exact_amount_out at h
  simp only [reduceIte] at h
  rcases hai : calculate_amount_in (min bin.amount_a amount) bin.price false with e | aiwf
  · rw [hai] at h
    cases h
  · rw [hai] at h
    dsimp only at h
    rcases hfe : calculate_fee_exclusive aiwf fr with e | fee2
    · rw [hfe] at h
      cases h
    · rw [hfe] at h
      dsimp only at h
      rcases hP : calculate_fee_inclusive fee2 pfr with e | pf0
      · rw [hP] at h
        cases h
      · rw [hP] at h
        dsimp only at h
        injection h with h
        injection h with h1 h
        injection h with h2 h
        injection h with h3 h
        injection h with h4 h5
        subst h1
        subst h2
        subst h3
        subst h4
        subst h5
        exact ⟨aiwf, rfl, hfe, hP, rfl, rfl, rfl⟩

end BinSwapLemmas

/-- C1: for every successful Bin::swap_exact_amount_in or
Bin::swap_exact_amount_out call on a bin whose reserves are valid u64
values, the reserve on the side being drawn down is decremented by exactly
the delivered amount_out, which never exceeds its value before the call, and
both reserves remain valid u64 values afterwards. -/
theorem c1_reserve_never_underflows (bin bin2 : Bin) (amount : Nat) (a2b : Bool)
    (fee_rate protocol_fee_rate ain aout fee pf : Nat)
    (hA : bin.amount_a < 2 ^ 64) (hB : bin.amount_b < 2 ^ 64)
    (h : bin.swap_exact_amount_in amount a2b fee_rate protocol_fee_rate =
           .ok (bin2, ain, aout, fee, pf) ∨
         bin.swap_exact_amount_out amount a2b fee_rate protocol_fee_rate =
           .ok (bin2, ain, aout, fee, pf)) :
    aout ≤ (if a2b then bin.amount_b else bin.amount_a) ∧
    (if a2b then bin2.amount_b else bin2.amount_a) =
      (if a2b then bin.amount_b else bin.amount_a) - aout ∧
    bin2.amount_a < 2 ^ 64 ∧ bin2.amount_b < 2 ^ 64 := by
  cases a2b with
  | true =>
    simp only [reduceIte]
    rcases h with h | h
    · obtain ⟨F, ao0, hF, hO, hP, hbin2, hcases⟩ := swap_in_a2b_ok_cases h
      have haout : aout ≤ bin.amount_b := by
        rcases hcases with ⟨hle, -, ha3, -⟩ | ⟨-, aiwf, -, -, -, -, ha3⟩ <;> omega
      subst hbin2
      refine ⟨haout, wrap64_sub_eq haout hB, ?_, ?_⟩
      · exact wrap64_lt ((bin.amount_a : Int) + (ain : Int) - (fee : Int))
      · exact wrap64_lt ((bin.amount_b : Int) - (aout : Int))
    · obtain ⟨aiwf, hai, hfe, hP, hain, haout, hbin2⟩ := swap_out_a2b_ok_cases h
      have hle : aout ≤ bin.amount_b := by
        rw [haout]
        exact Nat.min_le_left ..
      subst hbin2
      refine ⟨hle, wrap64_sub_eq hle hB, ?_, ?_⟩
      · exact wrap64_lt ((bin.amount_a : Int) + (aiwf : Int))
      · exact wrap64_lt ((bin.amount_b : Int) - (aout : Int))
  | false =>
    simp only [Bool.false_eq_true, reduceIte]
    rcases h with h | h
    · obtain ⟨F, ao0, hF, hO, hP, hbin2, hcases⟩ := swap_in_b2a_ok_cases h
      have haout : aout ≤ bin.amount_a := by
        rcases hcases with ⟨hle, -, ha3, -⟩ | ⟨-, aiwf, -, -, -, -, ha3⟩ <;> omega
      subst hbin2
      refine ⟨haout, wrap64_sub_eq haout hA, ?_, ?_⟩
      · exact wrap64_lt ((bin.amount_a : Int) - (aout : Int))
      · exact wrap64_lt ((bin.amount_b : Int) + (ain : Int) - (fee : Int))
    · obtain ⟨aiwf, hai, hfe, hP, hain, haout, hbin2⟩ := swap_out_b2a_ok_cases h
      have hle : aout ≤ bin.amount_a := by
        rw [haout]
        exact Nat.min_le_left ..
      subst hbin2
      refine ⟨hle, wrap64_sub_eq hle hA, ?_, ?_⟩
      · exact wrap64_lt ((bin.amount_a : Int) - (aout : Int))
      · exact wrap64_lt ((bin.amount_b : Int) + (aiwf : Int))

section FeeSignLemmas

theorem clip_floor_le {n d R net : Nat} (hn : 0 < n) (hd : 0 < d)
    (h : R < net * n / d) : (R * d + n - 1) / n ≤ net := by
  rw [ceil_le_iff hn]
  have h1 : (R + 1) * d ≤ net * n :=
    (Nat.le_div_iff_mul_le hd).mp (by omega : R + 1 ≤ net * n / d)
  calc R * d ≤ (R + 1) * d := Nat.mul_le_mul_right d (by omega)
    _ ≤ net * n := h1
    _ = n * net := Nat.mul_comm ..

theorem fee_chain {P fr A F aiwf : Nat} (hP : 0 < P) (hfr : fr < P)
    (hF : F = (A * fr + P - 1) / P) (hle : aiwf ≤ A - F) :
    (aiwf * fr + (P - fr) - 1) / (P - fr) ≤ F := by
  rw [ceil_le_iff (by omega)]
  have hAf : A * fr ≤ P * F := by
    rw [hF]
    exact le_mul_ceil (A * fr) P hP
  calc aiwf * fr ≤ (A - F) * fr := Nat.mul_le_mul_right fr hle
    _ = A * fr - F * fr := Nat.sub_mul ..
    _ ≤ P * F - F * fr := Nat.sub_le_sub_right hAf _
    _ = P * F - fr * F := by rw [Nat.mul_comm F fr]
    _ = (P - fr) * F := (Nat.sub_mul P fr F).symm

theorem calculate_fee_inclusive_pos {amount fr F : Nat}
    (h : calculate_fee_inclusive amount fr = .ok F)
    (ha : 0 < amount) (hf : 0 < fr) (hlt : amount < 2 ^ 64) : 0 < F := by
  rcases calculate_fee_inclusive_ok_cases h with ⟨hz, -⟩ | ⟨-, -, hfr, hfe⟩
  · omega
  · have hP : 0 < FEE_PRECISION := by decide
    have h1 : (amount * fr + FEE_PRECISION - 1) / FEE_PRECISION ≤ amount := by
      rw [ceil_le_iff hP]
      calc amount * fr ≤ amount * FEE_PRECISION := Nat.mul_le_mul_left amount hfr
        _ = FEE_PRECISION * amount := Nat.mul_comm ..
    have h2 : 0 < (amount * fr + FEE_PRECISION - 1) / FEE_PRECISION :=
      ceil_pos hP (Nat.mul_pos ha hf)
    rw [hfe, Nat.mod_eq_of_lt (by omega)]
    exact h2

theorem calculate_fee_inclusive_eq_ceil {amount fr F : Nat}
    (h : calculate_fee_inclusive amount fr = .ok F)
    (ha : 0 < amount) (hf : 0 < fr) (hlt : amount < 2 ^ 64) :
    fr ≤ FEE_PRECISION ∧
    F = (amount * fr + FEE_PRECISION - 1) / FEE_PRECISION := by
  rcases calculate_fee_inclusive_ok_cases h with ⟨hz, -⟩ | ⟨-, -, hfr, hfe⟩
  · omega
  · have hP : 0 < FEE_PRECISION := by decide
    have h1 : (amount * fr + FEE_PRECISION - 1) / FEE_PRECISION ≤ amount := by
      rw [ceil_le_iff hP]
      calc amount * fr ≤ amount * FEE_PRECISION := Nat.mul_le_mul_left amount hfr
        _ = FEE_PRECISION * amount := Nat.mul_comm ..
    refine ⟨hfr, ?_⟩
    rw [hfe, Nat.mod_eq_of_lt (by omega)]

end FeeSignLemmas

/-- C6 counterexample: a successful exact-in swap against a bin with an
empty output-side reserve returns fee = 0 even though fee_rate > 0 and
amount_in > 0 (the clip branch recomputes the fee on a zero required
input). -/
theorem c6_counterexample :
    Bin.swap_exact_amount_in zeroReserveBin 1000 true 1000 0 =
      .ok (zeroReserveBin, 0, 0, 0, 0) ∧
    (0 : Nat) < 1000 ∧ zeroReserveBin.amount_b = 0 :=
  ⟨rfl, by decide, rfl⟩

/-- C6 (amended): for every successful single-bin exact-in swap, the
returned fee is zero whenever fee_rate = 0 or amount_in = 0, and the
returned fee is strictly positive whenever fee_rate > 0, amount_in > 0 and
the bin's output-side reserve is nonzero (with an empty output-side reserve
the clipped trade can be a zero-input no-op whose fee is 0). -/
theorem c6_fee_sign (bin bin2 : Bin) (amount : Nat) (a2b : Bool)
    (fee_rate protocol_fee_rate ain aout fee pf : Nat)
    (hlt : amount < 2 ^ 64)
    (h : bin.swap_exact_amount_in amount a2b fee_rate protocol_fee_rate =
           .ok (bin2, ain, aout, fee, pf)) :
    feeSignSpec bin amount a2b fee_rate fee := by
  cases a2b with
  | true =>
    obtain ⟨F, ao0, hF, hO, hP, hbin2, hcases⟩ := swap_in_a2b_ok_cases h
    constructor
    · intro hz
      rcases hcases with ⟨-, -, -, hfeF⟩ | ⟨hclip, aiwf, hai, hfe, -, -, -⟩
      · subst hfeF
        rcases calculate_fee_inclusive_ok_cases hF with ⟨-, h0⟩ | ⟨ha, hf, -, -⟩
        · exact h0
        · omega
      · rcases calculate_fee_exclusive_ok_cases hfe with ⟨-, h0⟩ | ⟨hap, hfp, -, -⟩
        · exact h0
        · exfalso
          rcases hz with hz | hz
          · omega
          · subst hz
            have hF0 : F = 0 := by
              rcases calculate_fee_inclusive_ok_cases hF with ⟨-, h0⟩ | ⟨ha, -, -, -⟩
              · exact h0
              · omega
            subst hF0
            rcases calculate_amount_out_a2b_ok_cases hO with ⟨-, ⟨-, hao⟩ | ⟨hpos, -, -⟩⟩
            · omega
            · exact absurd hpos (by decide)
    · intro hfr hamt hres
      rw [if_pos rfl] at hres
      rcases hcases with ⟨-, -, -, hfeF⟩ | ⟨hclip, aiwf, hai, hfe, -, -, -⟩
      · subst hfeF
        exact calculate_fee_inclusive_pos hF hamt hfr hlt
      · obtain ⟨hfrP, hFval⟩ := calculate_fee_inclusive_eq_ceil hF hamt hfr hlt
        have hFle : F ≤ amount := calculate_fee_inclusive_le hF
        have hnet : wrap64 ((amount : Int) - (F : Int)) = amount - F :=
          wrap64_sub_eq hFle hlt
        rw [hnet] at hO
        rcases calculate_amount_out_a2b_ok_cases hO with
          ⟨hprice, ⟨hz0, hao⟩ | ⟨hnet0, -, haov⟩⟩
        · omega
        · rcases calculate_amount_in_a2b_ok_cases hai with
            ⟨-, ⟨hb0, -⟩ | ⟨hbpos, haiwfle, haiwfv⟩⟩
          · omega
          · have hONE : 0 < ONE := by decide
            have haiwf_le_net : aiwf ≤ amount - F := by
              rw [haiwfv]
              exact clip_floor_le hprice hONE (by rw [← haov]; omega)
            have haiwf_pos : 0 < aiwf := by
              rw [haiwfv]
              exact ceil_pos hprice (Nat.mul_pos hres hONE)
            rcases calculate_fee_exclusive_ok_cases hfe with ⟨hzz, -⟩ | ⟨-, -, hfrlt, hfeev⟩
            · omega
            · have hchain :
                  (aiwf * fee_rate + (FEE_PRECISION - fee_rate) - 1) /
                    (FEE_PRECISION - fee_rate) ≤ F :=
                fee_chain (by decide) hfrlt hFval haiwf_le_net
              have hfee_pos :
                  0 < (aiwf * fee_rate + (FEE_PRECISION - fee_rate) - 1) /
                    (FEE_PRECISION - fee_rate) :=
                ceil_pos (by omega) (Nat.mul_pos haiwf_pos hfr)
              rw [hfeev, Nat.mod_eq_of_lt (by omega)]
              exact hfee_pos
  | false =>
    obtain ⟨F, ao0, hF, hO, hP, hbin2, hcases⟩ := swap_in_b2a_ok_cases h
    constructor
    · intro hz
      rcases hcases with ⟨-, -, -, hfeF⟩ | ⟨hclip, aiwf, hai, hfe, -, -, -⟩
      · subst hfeF
        rcases calculate_fee_inclusive_ok_cases hF with ⟨-, h0⟩ | ⟨ha, hf, -, -⟩
        · exact h0
        · omega
      · rcases calculate_fee_exclusive_ok_cases hfe with ⟨-, h0⟩ | ⟨hap, hfp, -, -⟩
        · exact h0
        · exfalso
          rcases hz with hz | hz
          · omega
          · subst hz
            have hF0 : F = 0 := by
              rcases calculate_fee_inclusive_ok_cases hF with ⟨-, h0⟩ | ⟨ha, -, -, -⟩
              · exact h0
              · omega
            subst hF0
            rcases calculate_amount_out_b2a_ok_cases hO with ⟨-, ⟨-, hao⟩ | ⟨hpos, -, -⟩⟩
            · omega
            · exact absurd hpos (by decide)
    · intro hfr hamt hres
      rw [if_neg (by simp : ¬(false = true))] at hres
      rcases hcases with ⟨-, -, -, hfeF⟩ | ⟨hclip, aiwf, hai, hfe, -, -, -⟩
      · subst hfeF
        exact calculate_fee_inclusive_pos hF hamt hfr hlt
      · obtain ⟨hfrP, hFval⟩ := calculate_fee_inclusive_eq_ceil hF hamt hfr hlt
        have hFle : F ≤ amount := calculate_fee_inclusive_le hF
        have hnet : wrap64 ((amount : Int) - (F : Int)) = amount - F :=
          wrap64_sub_eq hFle hlt
        rw [hnet] at hO
        rcases calculate_amount_out_b2a_ok_cases hO with
          ⟨hprice, ⟨hz0, hao⟩ | ⟨hnet0, -, haov⟩⟩
        · omega
        · rcases calculate_amount_in_b2a_ok_cases hai with
            ⟨-, ⟨hb0, -⟩ | ⟨hbpos, haiwfle, haiwfv⟩⟩
          · omega
          · have hONE : 0 < ONE := by decide
            have haiwf_le_net : aiwf ≤ amount - F := by
              rw [haiwfv]
              exact clip_floor_le hONE hprice (by rw [← haov]; omega)
            have haiwf_pos : 0 < aiwf := by
              rw [haiwfv]
              exact ceil_pos hONE (Nat.mul_pos hres hprice)
            rcases calculate_fee_exclusive_ok_cases hfe with ⟨hzz, -⟩ | ⟨-, -, hfrlt, hfeev⟩
            · omega
            · have hchain :
                  (aiwf * fee_rate + (FEE_PRECISION - fee_rate) - 1) /
                    (FEE_PRECISION - fee_rate) ≤ F :=
                fee_chain (by decide) hfrlt hFval haiwf_le_net
              have hfee_pos :
                  0 < (aiwf * fee_rate + (FEE_PRECISION - fee_rate) - 1) /
                    (FEE_PRECISION - fee_rate) :=
                ceil_pos (by omega) (Nat.mul_pos haiwf_pos hfr)
              rw [hfeev, Nat.mod_eq_of_lt (by omega)]
              exact hfee_pos

/-- C6 witness: the bin.rs unit-test swap (fee 30 > 0 with positive fee
rate, amount and reserve). -/
theorem c6_fee_sign_witness : feeSignSpec exampleBin 100000 true 300000 30 :=
  c6_fee_sign exampleBin exampleBinAfter 100000 true 300000 1000
    100000 99970 30 1 (by decide) rfl

/-- C1 witness: the bin.rs unit-test swap on exampleBin (100000 in a2b at
fee rate 300000 over FEE_PRECISION) draws 99970 out of the 500000 b-reserve. -/
theorem c1_reserve_never_underflows_witness :
    (99970 : Nat) ≤ (if true then exampleBin.amount_b else exampleBin.amount_a) ∧
    (if true then exampleBinAfter.amount_b else exampleBinAfter.amount_a) =
      (if true then exampleBin.amount_b else exampleBin.amount_a) - 99970 ∧
    exampleBinAfter.amount_a < 2 ^ 64 ∧ exampleBinAfter.amount_b < 2 ^ 64 :=
  c1_reserve_never_underflows exampleBin exampleBinAfter 100000 true 300000 1000
    100000 99970 30 1 (by decide) (by decide) (Or.inl rfl)

/-- C7 counterexample: the final timestamp write in swap_in_pool is
unconditional, so a successful swap with a caller-supplied timestamp (5)
smaller than the stored last_update_timestamp (10) decreases the stored
value. -/
theorem c7_counterexample :
    Pool.swap_in_pool stalePool 0 true true 5 = .ok (stalePoolAfter, SwapResult.default0) ∧
    stalePool.v_parameters.last_update_timestamp = 10 ∧
    stalePoolAfter.v_parameters.last_update_timestamp = 5 ∧
    (5 : Nat) < 10 := by
  refine ⟨?_, rfl, rfl, by decide⟩
  simp +decide [Pool.swap_in_pool, stalePool, stalePoolAfter, Pool.swap_in_pool_aux,
    Pool.update_references, toI64, Pool.find_first_swap_bin_index, findFirstA2bAux,
    Pool.swapLoop, SwapResult.default0, exampleConfig, binIdAt]

/-- C7 (amended): after every successful swap call on a non-empty pool the
stored last_update_timestamp equals the caller-supplied timestamp (the
write is unconditional, so the stored value is non-decreasing exactly when
the caller supplies non-decreasing timestamps), and a reference update
whose timestamp is not strictly greater than the stored one changes no
fee-model state. -/
theorem c7_timestamp_update (self : Pool) (amount : Nat) (a2b by_amount_in : Bool)
    (current_timestamp : Nat) (p2 : Pool) (r : SwapResult) (q : Pool) (t2 : Int)
    (hne : self.bins.isEmpty = false)
    (hok : self.swap_in_pool amount a2b by_amount_in current_timestamp = .ok (p2, r))
    (ht2 : t2 ≤ toI64 q.v_parameters.last_update_timestamp) :
    p2.v_parameters.last_update_timestamp = current_timestamp ∧
    q.update_references t2 = .ok q := by
  constructor
  · unfold Pool.swap_in_pool at hok
    rw [hne] at hok
    simp only [Bool.false_eq_true, reduceIte] at hok
    rcases haux : self.swap_in_pool_aux amount a2b by_amount_in current_timestamp
      with e | quad
    · rw [haux] at hok
      cases hok
    · obtain ⟨pm, res, acc, rem⟩ := quad
      rw [haux] at hok
      dsimp only at hok
      injection hok with hok
      injection hok with hok hok2
      subst hok
      rfl
  · unfold Pool.update_references
    rw [if_pos ht2]

/-- C7 witness: the pool.rs unit-test swap at timestamp 10 stores 10, and a
reference update on stalePool (stored timestamp 10) at timestamp 5 is a
no-op. -/
theorem c7_timestamp_update_witness :
    examplePoolAfter.v_parameters.last_update_timestamp = 10 ∧
    stalePool.update_references 5 = .ok stalePool :=
  c7_timestamp_update examplePool 200000 true true 10 examplePoolAfter
    exampleSwapResult stalePool 5 rfl
    (by
      simp +decide [Pool.swap_in_pool, Pool.swap_in_pool_aux, Pool.update_references,
        toI64, wrapI64, Pool.find_first_swap_bin_index, findFirstA2bAux, binIdAt,
        Pool.swapLoop, nextBinIdx, Pool.update_volatility_accumulator, Pool.get_total_fee,
        Pool.get_variable_fee, Pool.compute_variable_fee, Bin.swap_exact_amount_in,
        calculate_fee_inclusive, calculate_fee_exclusive, calculate_amount_in,
        calculate_amount_out, mul_div, wrap64, ONE, FEE_PRECISION, MAX_FEE_RATE,
        BASIS_POINT_MAX, SwapResult.update_swap_result, SwapResult.default0,
        examplePool, examplePoolAfter, exampleSwapResult, exampleConfig])
    (by decide)

theorem swapLoop_is_exceed :
  ∀ (self : Pool) (a2b bai : Bool) (pfr : Nat) (opIdx : Option Nat)
    (remaining : Nat) (res : SwapResult) (acc : Nat)
    (p2 : Pool) (res2 : SwapResult) (acc2 rem2 : Nat),
    self.swapLoop a2b bai pfr opIdx remaining res acc = .ok (p2, res2, acc2, rem2) →
    res.is_exceed = false →
    (res2.is_exceed = true ↔ 0 < rem2) := by
  intro self a2b bai pfr opIdx remaining res acc
  induction self, a2b, bai, pfr, opIdx, remaining, res, acc using Pool.swapLoop.induct with
  | case1 self a2b bai pfr opIdx res acc =>
    intro p2 res2 acc2 rem2 hok hres
    rw [Pool.swapLoop.eq_def] at hok
    simp only [reduceIte] at hok
    injection hok with hok
    injection hok with h1 hok
    injection hok with h2 hok
    injection hok with h3 h4
    subst h2
    subst h4
    rw [hres]
    simp
  | case2 self a2b bai pfr remaining res acc h0 =>
    intro p2 res2 acc2 rem2 hok hres
    rw [Pool.swapLoop.eq_def] at hok
    rw [if_neg h0] at hok
    dsimp only at hok
    injection hok with hok
    injection hok with h1 hok
    injection hok with h2 hok
    injection hok with h3 h4
    subst h2
    subst h4
    constructor
    · intro h
      omega
    · intro h
      rfl
  | case3 self a2b bai pfr remaining res acc h0 r e hvol =>
    intro p2 res2 acc2 rem2 hok hres
    rw [Pool.swapLoop.eq_def] at hok
    rw [if_neg h0] at hok
    dsimp only at hok
    rw [hvol] at hok
    cases hok
  | case4 self a2b bai pfr remaining res acc h0 r p1 hvol e hfee =>
    intro p2 res2 acc2 rem2 hok hres
    rw [Pool.swapLoop.eq_def] at hok
    rw [if_neg h0] at hok
    dsimp only at hok
    rw [hvol] at hok
    dsimp only at hok
    rw [hfee] at hok
    cases hok
  | case5 self a2b bai pfr remaining res acc h0 r p1 hvol fee_rate dy hfee cur_bin e hswap =>
    intro p2 res2 acc2 rem2 hok hres
    rw [Pool.swapLoop.eq_def] at hok
    rw [if_neg h0] at hok
    dsimp only at hok
    rw [hvol] at hok
    dsimp only at hok
    rw [hfee] at hok
    dsimp only at hok
    rw [dite_eq_ite] at hswap
    rw [hswap] at hok
    cases hok
  | case6 self a2b bai pfr remaining res acc h0 r next_idx p1 hvol fee_rate dy hfee cur_bin
      new_bin amount_in amount_out fee bpf hswap p2x step_result remaining2 acc2x result2 p3 IH =>
    intro p2 res2 acc2 rem2 hok hres
    rw [Pool.swapLoop.eq_def] at hok
    rw [if_neg h0] at hok
    dsimp only at hok
    rw [hvol] at hok
    dsimp only at hok
    rw [hfee] at hok
    dsimp only at hok
    rw [dite_eq_ite] at hswap
    rw [hswap] at hok
    dsimp only at hok
    exact IH p2 res2 acc2 rem2 hok hres

/-- C2 counterexample: a swap of amount 0 against an empty pool succeeds
with is_exceed = true although the remaining requested amount (0) is not
strictly positive, so the claimed iff fails on empty pools. -/
theorem c2_counterexample :
    Pool.swap_in_pool emptyPool 0 true true 0 =
      .ok (emptyPool, { SwapResult.default0 with is_exceed := true }) ∧
    ({ SwapResult.default0 with is_exceed := true }).is_exceed = true ∧
    ¬(0 : Nat) < 0 :=
  ⟨rfl, rfl, by omega⟩

/-- C2 (amended): for a successful swap on a non-empty pool, the result
is_exceed flag is true iff the remaining requested amount is still strictly
positive after the last reachable bin has been tried (the loop of
swap_in_pool returns that remaining amount, and swap_in_pool only copies
the flag while recording the protocol fee); an empty pool instead always
returns is_exceed = true, even for a zero-amount request. -/
theorem c2_is_exceed_iff (self : Pool) (amount : Nat) (a2b by_amount_in : Bool)
    (current_timestamp : Nat) (pm : Pool) (res : SwapResult) (acc rem : Nat)
    (epool : Pool) (eamount : Nat) (ea2b ebai : Bool) (ets : Nat)
    (hne : self.bins.isEmpty = false)
    (haux : self.swap_in_pool_aux amount a2b by_amount_in current_timestamp =
      .ok (pm, res, acc, rem))
    (hempty : epool.bins.isEmpty = true) :
    (res.is_exceed = true ↔ 0 < rem) ∧
    self.swap_in_pool amount a2b by_amount_in current_timestamp =
      .ok ({ pm with v_parameters :=
               { pm.v_parameters with last_update_timestamp := current_timestamp } },
           { res with protocol_fee := acc }) ∧
    epool.swap_in_pool eamount ea2b ebai ets =
      .ok (epool, { SwapResult.default0 with is_exceed := true }) := by
  refine ⟨?_, ?_, ?_⟩
  · unfold Pool.swap_in_pool_aux at haux
    rcases href : self.update_references (toI64 current_timestamp) with e | p1
    · rw [href] at haux
      cases haux
    · rw [href] at haux
      dsimp only at haux
      exact swapLoop_is_exceed p1 a2b by_amount_in
        p1.v_parameters.bin_step_config.protocol_fee_rate
        (p1.find_first_swap_bin_index p1.active_id a2b).1 amount
        SwapResult.default0 0 pm res acc rem haux rfl
  · unfold Pool.swap_in_pool
    rw [hne]
    simp only [Bool.false_eq_true, reduceIte]
    rw [haux]
  · unfold Pool.swap_in_pool
    rw [hempty]
    simp only [reduceIte]

/-- C2 witness: the pool.rs unit-test swap fills completely (remaining 0,
not exceeded), and an empty-pool swap reports is_exceed. -/
theorem c2_is_exceed_iff_witness :
    (exampleLoopResult.is_exceed = true ↔ 0 < 0) ∧
    examplePool.swap_in_pool 200000 true true 10 =
      .ok ({ examplePoolMid with v_parameters :=
               { examplePoolMid.v_parameters with last_update_timestamp := 10 } },
           { exampleLoopResult with protocol_fee := 1 }) ∧
    emptyPool.swap_in_pool 7 false true 3 =
      .ok (emptyPool, { SwapResult.default0 with is_exceed := true }) :=
  c2_is_exceed_iff examplePool 200000 true true 10 examplePoolMid exampleLoopResult 1 0
    emptyPool 7 false true 3 rfl
    (by
      simp +decide [Pool.swap_in_pool_aux, Pool.update_references, toI64, wrapI64,
        Pool.find_first_swap_bin_index, findFirstA2bAux, binIdAt, Pool.swapLoop, nextBinIdx,
        Pool.update_volatility_accumulator, Pool.get_total_fee, Pool.get_variable_fee,
        Pool.compute_variable_fee, Bin.swap_exact_amount_in, calculate_fee_inclusive,
        calculate_fee_exclusive, calculate_amount_in, calculate_amount_out, mul_div, wrap64,
        ONE, FEE_PRECISION, MAX_FEE_RATE, BASIS_POINT_MAX, SwapResult.update_swap_result,
        SwapResult.default0, examplePool, examplePoolMid, exampleLoopResult, exampleConfig])
    rfl

section BinarySearchLemmas

theorem binIdAt_lt_of_sorted {bins : List Bin}
    (hs : bins.Pairwise (fun b1 b2 => b1.id < b2.id)) {i j : Nat}
    (hij : i < j) (hj : j < bins.length) : binIdAt bins i < binIdAt bins j := by
  have hi : i < bins.length := lt_trans hij hj
  unfold binIdAt
  rw [List.getD_eq_getElem bins default hi, List.getD_eq_getElem bins default hj]
  exact List.pairwise_iff_getElem.mp hs i j hi hj hij

theorem binIdAt_le_of_sorted {bins : List Bin}
    (hs : bins.Pairwise (fun b1 b2 => b1.id < b2.id)) {i j : Nat}
    (hij : i ≤ j) (hj : j < bins.length) : binIdAt bins i ≤ binIdAt bins j := by
  rcases Nat.lt_or_ge i j with h | h
  · exact le_of_lt (binIdAt_lt_of_sorted hs h hj)
  · have heq : i = j := by omega
    rw [heq]

theorem findFirstA2bAux_spec {bins : List Bin} (active : Int)
    (hs : bins.Pairwise (fun b1 b2 => b1.id < b2.id)) :
    ∀ fuel left right, right + 1 - left ≤ fuel →
      right < bins.length → left < bins.length → left ≤ right + 1 →
      (0 < left → binIdAt bins left ≤ active) →
      (∀ k, right < k → k < bins.length → active < binIdAt bins k) →
      (∀ i, (findFirstA2bAux bins active left right).1 = some i →
         i < bins.length ∧ binIdAt bins i ≤ active ∧
         ∀ j, i < j → j < bins.length → active < binIdAt bins j) ∧
      ((findFirstA2bAux bins active left right).1 = none →
         ∀ j, j < bins.length → active < binIdAt bins j) := by
  intro fuel
  induction fuel with
  | zero =>
    intro left right hfuel hr hl hlr h5 h2
    have hgt : ¬(left ≤ right) := by omega
    rw [findFirstA2bAux.eq_def, dif_neg hgt]
    constructor
    · intro i hi
      cases hi
    · intro _ j hj
      exact absurd (h5 (by omega)) (not_le.mpr (h2 left (by omega) hl))
  | succ fuel IH =>
    intro left right hfuel hr hl hlr h5 h2
    by_cases hle : left ≤ right
    · rw [findFirstA2bAux.eq_def, dif_pos hle]
      dsimp only
      have hmid1 : left ≤ left + (right - left) / 2 := Nat.le_add_right ..
      have hmid2 : left + (right - left) / 2 ≤ right := by
        have hd2 : (right - left) / 2 ≤ right - left := Nat.div_le_self ..
        omega
      set mid := left + (right - left) / 2 with hmiddef
      by_cases hA : binIdAt bins mid ≤ active
      · by_cases hA1 : mid = bins.length - 1 ∨ active < binIdAt bins (mid + 1)
        · rw [if_pos hA, if_pos hA1]
          constructor
          · intro i hi
            injection hi with hi
            subst hi
            refine ⟨by omega, hA, ?_⟩
            intro j hj1 hj2
            rcases hA1 with h1 | h1
            · omega
            · have hle2 : binIdAt bins (mid + 1) ≤ binIdAt bins j :=
                binIdAt_le_of_sorted hs (by omega) hj2
              omega
          · intro hnone
            cases hnone
        · rw [if_pos hA, if_neg hA1]
          push_neg at hA1
          obtain ⟨hA1a, hA1b⟩ := hA1
          exact IH (mid + 1) right (by omega) hr (by omega) (by omega)
            (fun _ => hA1b) h2
      · by_cases hB1 : mid = 0
        · rw [if_neg hA, if_pos hB1]
          push_neg at hA
          constructor
          · intro i hi
            cases hi
          · intro _ j hj
            have h0 : active < binIdAt bins 0 := hB1 ▸ hA
            rcases Nat.eq_zero_or_pos j with hj0 | hj0
            · rw [hj0]
              exact h0
            · have hle2 : binIdAt bins 0 < binIdAt bins j :=
                binIdAt_lt_of_sorted hs (by omega) hj
              omega
        · rw [if_neg hA, if_neg hB1]
          push_neg at hA
          refine IH left (mid - 1) (by omega) (by omega) hl (by omega) h5 ?_
          intro k hk1 hk2
          have hle2 : binIdAt bins mid ≤ binIdAt bins k :=
            binIdAt_le_of_sorted hs (by omega) hk2
          omega
    · rw [findFirstA2bAux.eq_def, dif_neg hle]
      constructor
      · intro i hi
        cases hi
      · intro _ j hj
        exact absurd (h5 (by omega)) (not_le.mpr (h2 left (by omega) hl))

theorem findFirstB2aAux_spec {bins : List Bin} (active : Int)
    (hs : bins.Pairwise (fun b1 b2 => b1.id < b2.id)) :
    ∀ fuel left right, right + 1 - left ≤ fuel →
      right < bins.length → left ≤ right + 1 →
      (∀ k, k < left → binIdAt bins k ≤ active) →
      (right = bins.length - 1 ∨ active < binIdAt bins right) →
      (∀ i, (findFirstB2aAux bins active left right).1 = some i →
         i < bins.length ∧ active < binIdAt bins i ∧
         ∀ j, j < i → binIdAt bins j ≤ active) ∧
      ((findFirstB2aAux bins active left right).1 = none →
         ∀ j, j < bins.length → binIdAt bins j ≤ active) := by
  intro fuel
  induction fuel with
  | zero =>
    intro left right hfuel hr hlr h2b h10
    have hgt : ¬(left ≤ right) := by omega
    rw [findFirstB2aAux.eq_def, dif_neg hgt]
    constructor
    · intro i hi
      cases hi
    · intro _ j hj
      rcases h10 with h10 | h10
      · exact h2b j (by omega)
      · exact absurd (h2b right (by omega)) (not_le.mpr h10)
  | succ fuel IH =>
    intro left right hfuel hr hlr h2b h10
    by_cases hle : left ≤ right
    · rw [findFirstB2aAux.eq_def, dif_pos hle]
      dsimp only
      have hmid1 : left ≤ left + (right - left) / 2 := Nat.le_add_right ..
      have hmid2 : left + (right - left) / 2 ≤ right := by
        have hd2 : (right - left) / 2 ≤ right - left := Nat.div_le_self ..
        omega
      set mid := left + (right - left) / 2 with hmiddef
      by_cases hB : active < binIdAt bins mid
      · by_cases hB1 : mid = 0 ∨ binIdAt bins (mid - 1) ≤ active
        · rw [if_pos hB, if_pos hB1]
          constructor
          · intro i hi
            injection hi with hi
            subst hi
            refine ⟨by omega, hB, ?_⟩
            intro j hj
            rcases hB1 with h1 | h1
            · omega
            · have hle2 : binIdAt bins j ≤ binIdAt bins (mid - 1) :=
                binIdAt_le_of_sorted hs (by omega) (by omega)
              omega
          · intro hnone
            cases hnone
        · rw [if_pos hB, if_neg hB1]
          push_neg at hB1
          obtain ⟨hB1a, hB1b⟩ := hB1
          exact IH left (mid - 1) (by omega) (by omega) (by omega) h2b (Or.inr hB1b)
      · rw [if_neg hB]
        push_neg at hB
        refine IH (mid + 1) right (by omega) hr (by omega) ?_ h10
        intro k hk
        have hle2 : binIdAt bins k ≤ binIdAt bins mid :=
          binIdAt_le_of_sorted hs (by omega) (by omega)
        omega
    · rw [findFirstB2aAux.eq_def, dif_neg hle]
      constructor
      · intro i hi
        cases hi
      · intro _ j hj
        rcases h10 with h10 | h10
        · exact h2b j (by omega)
        · exact absurd (h2b right (by omega)) (not_le.mpr h10)

end BinarySearchLemmas

/-- C8: on a non-empty bin list sorted strictly ascending by id,
find_first_swap_bin_index returns in the a2b direction the index of the bin
with the greatest id that is at most active_id (none when every bin id
exceeds active_id), and in the b2a direction the index of the bin with the
smallest id strictly greater than active_id (none when no bin id exceeds
active_id). -/
theorem c8_find_first_swap_bin_index (pool : Pool) (active : Int)
    (hs : pool.bins.Pairwise (fun b1 b2 => b1.id < b2.id))
    (hne : pool.bins.isEmpty = false) :
    greatestLeSpec pool.bins active (pool.find_first_swap_bin_index active true).1 ∧
    leastGtSpec pool.bins active (pool.find_first_swap_bin_index active false).1 := by
  have hlen : 0 < pool.bins.length := by
    cases hb : pool.bins with
    | nil =>
      rw [hb] at hne
      cases hne
    | cons a l =>
      simp
  constructor
  · unfold Pool.find_first_swap_bin_index
    rw [hne]
    simp only [Bool.false_eq_true, reduceIte]
    obtain ⟨hsome, hnone⟩ := findFirstA2bAux_spec active hs pool.bins.length 0
      (pool.bins.length - 1) (by omega) (by omega) (by omega) (by omega)
      (fun h => absurd h (lt_irrefl 0))
      (fun k hk1 hk2 => absurd hk1 (by omega))
    rcases hr : (findFirstA2bAux pool.bins active 0 (pool.bins.length - 1)).1 with _ | i
    · exact hnone hr
    · obtain ⟨hi1, hi2, hi3⟩ := hsome i hr
      refine ⟨hi1, hi2, ?_⟩
      intro j hj hjle
      by_contra hji
      push_neg at hji
      exact absurd hjle (not_le.mpr (hi3 j hji hj))
  · unfold Pool.find_first_swap_bin_index
    rw [hne]
    simp only [Bool.false_eq_true, reduceIte]
    obtain ⟨hsome, hnone⟩ := findFirstB2aAux_spec active hs pool.bins.length 0
      (pool.bins.length - 1) (by omega) (by omega) (by omega)
      (fun k hk => absurd hk (by omega))
      (Or.inl rfl)
    rcases hr : (findFirstB2aAux pool.bins active 0 (pool.bins.length - 1)).1 with _ | i
    · exact hnone hr
    · obtain ⟨hi1, hi2, hi3⟩ := hsome i hr
      refine ⟨hi1, hi2, ?_⟩
      intro j hj hjgt
      by_contra hji
      push_neg at hji
      exact absurd (hi3 j hji) (not_le.mpr hjgt)

/-- C8 witness: on the two-bin example pool with active_id 0, the a2b search
finds index 0 (greatest id at most 0) and the b2a search finds index 1
(smallest id above 0). -/
theorem c8_find_first_swap_bin_index_witness :
    greatestLeSpec examplePool.bins 0 (examplePool.find_first_swap_bin_index 0 true).1 ∧
    leastGtSpec examplePool.bins 0 (examplePool.find_first_swap_bin_index 0 false).1 :=
  c8_find_first_swap_bin_index examplePool 0 (by decide) rfl

section StepsLemmas

theorem update_volatility_accumulator_bins {p q : Pool}
    (h : p.update_volatility_accumulator = .ok q) : q.bins = p.bins := by
  simp only [Pool.update_volatility_accumulator] at h
  split_ifs at h
  injection h with h
  subst h
  rfl

theorem update_references_bins {p : Pool} {t : Int} {q : Pool}
    (h : p.update_references t = .ok q) : q.bins = p.bins := by
  simp only [Pool.update_references] at h
  split_ifs at h
  all_goals
    injection h with h
    subst h
    rfl

theorem swap_in_preserves_id {bin bin2 : Bin} {amount : Nat} {a2b : Bool}
    {fr pfr ain aout fee pf : Nat}
    (h : bin.swap_exact_amount_in amount a2b fr pfr = .ok (bin2, ain, aout, fee, pf)) :
    bin2.id = bin.id := by
  cases a2b
  · obtain ⟨F, ao0, -, -, -, hbin2, -⟩ := swap_in_b2a_ok_cases h
    subst hbin2
    rfl
  · obtain ⟨F, ao0, -, -, -, hbin2, -⟩ := swap_in_a2b_ok_cases h
    subst hbin2
    rfl

theorem swap_out_preserves_id {bin bin2 : Bin} {amount : Nat} {a2b : Bool}
    {fr pfr ain aout fee pf : Nat}
    (h : bin.swap_exact_amount_out amount a2b fr pfr = .ok (bin2, ain, aout, fee, pf)) :
    bin2.id = bin.id := by
  cases a2b
  · obtain ⟨aiwf, -, -, -, -, -, hbin2⟩ := swap_out_b2a_ok_cases h
    subst hbin2
    rfl
  · obtain ⟨aiwf, -, -, -, -, -, hbin2⟩ := swap_out_a2b_ok_cases h
    subst hbin2
    rfl

theorem binIdAt_set_of_id_eq {bins : List Bin} {r : Nat} {b : Bin}
    (hid : b.id = binIdAt bins r) : ∀ k, binIdAt (bins.set r b) k = binIdAt bins k := by
  intro k
  rcases le_or_lt bins.length r with hlr | hlr
  · rw [List.set_eq_of_length_le hlr]
  · unfold binIdAt
    rw [List.getD_eq_getElem?_getD, List.getD_eq_getElem?_getD]
    rcases eq_or_ne r k with rfl | hrk
    · rw [List.getElem?_set_self hlr, List.getElem?_eq_getElem hlr]
      simp only [Option.getD_some]
      rw [hid]
      unfold binIdAt
      rw [List.getD_eq_getElem bins default hlr]
    · rw [List.getElem?_set_ne hrk]

theorem pairwise_id_set {bins : List Bin} {r : Nat} {b : Bin}
    (hs : bins.Pairwise (fun b1 b2 => b1.id < b2.id))
    (hid : b.id = binIdAt bins r) :
    (bins.set r b).Pairwise (fun b1 b2 => b1.id < b2.id) := by
  rcases le_or_lt bins.length r with hlr | hlr
  · rw [List.set_eq_of_length_le hlr]
    exact hs
  · rw [List.pairwise_iff_getElem] at hs ⊢
    intro i j hi hj hij
    rw [List.length_set] at hi hj
    have hbid : b.id = bins[r].id := by
      rw [hid]
      unfold binIdAt
      rw [List.getD_eq_getElem bins default hlr]
    rw [List.getElem_set, List.getElem_set]
    split_ifs with h1 h2
    · omega
    · rw [hbid]
      exact hs r j hlr hj (by omega)
    · rw [hbid]
      exact hs i r hi hlr (by omega)
    · exact hs i j hi hj hij

theorem nextBinIdx_lt {a2b : Bool} {r len i : Nat} (hr : r < len)
    (h : nextBinIdx a2b r len = some i) : i < len := by
  cases a2b with
  | true =>
    by_cases h0 : 0 < r
    · simp only [nextBinIdx, if_pos h0, reduceIte] at h
      injection h with h
      omega
    · simp only [nextBinIdx, if_neg h0, reduceIte] at h
      cases h
  | false =>
    by_cases h0 : r < len - 1
    · simp only [nextBinIdx, Bool.false_eq_true, reduceIte, if_pos h0] at h
      injection h with h
      omega
    · simp only [nextBinIdx, Bool.false_eq_true, reduceIte, if_neg h0] at h
      cases h

theorem inIdxRange_next {a2b : Bool} {r len k : Nat}
    (h : inIdxRange a2b (nextBinIdx a2b r len) k) :
    if a2b then k < r else r < k := by
  cases a2b with
  | true =>
    simp only [reduceIte]
    by_cases h0 : 0 < r
    · simp only [nextBinIdx, if_pos h0, reduceIte, inIdxRange] at h
      omega
    · simp only [nextBinIdx, if_neg h0, reduceIte, inIdxRange] at h
  | false =>
    simp only [Bool.false_eq_true, reduceIte]
    by_cases h0 : r < len - 1
    · simp only [nextBinIdx, Bool.false_eq_true, reduceIte, if_pos h0, inIdxRange] at h
      omega
    · simp only [nextBinIdx, Bool.false_eq_true, reduceIte, if_neg h0, inIdxRange] at h

theorem idxBound_next (a2b : Bool) (r len : Nat) (hr : r < len) :
    idxBound a2b (nextBinIdx a2b r len) len + 1 ≤ idxBound a2b (some r) len := by
  cases a2b with
  | true =>
    by_cases h : 0 < r
    · simp only [nextBinIdx, if_pos h, reduceIte, idxBound]
      omega
    · simp only [nextBinIdx, if_neg h, reduceIte, idxBound]
      omega
  | false =>
    by_cases h : r < len - 1
    · simp only [nextBinIdx, Bool.false_eq_true, reduceIte, if_pos h, idxBound]
      omega
    · simp only [nextBinIdx, Bool.false_eq_true, reduceIte, if_neg h, idxBound]
      omega

theorem inIdxRange_self {a2b : Bool} {r : Nat} : inIdxRange a2b (some r) r := by
  cases a2b with
  | true => simp [inIdxRange]
  | false => simp [inIdxRange]

theorem inIdxRange_of_next {a2b : Bool} {r len k : Nat}
    (h : inIdxRange a2b (nextBinIdx a2b r len) k) : inIdxRange a2b (some r) k := by
  have h2 := inIdxRange_next h
  cases a2b with
  | true =>
    simp only [reduceIte] at h2
    simp only [inIdxRange, reduceIte]
    omega
  | false =>
    simp only [Bool.false_eq_true, reduceIte] at h2
    simp only [inIdxRange, Bool.false_eq_true, reduceIte]
    omega

end StepsLemmas

theorem findFirstA2bAux_index_le (bins : List Bin) (active : Int) :
    ∀ fuel left right i, right + 1 - left ≤ fuel →
      (findFirstA2bAux bins active left right).1 = some i → i ≤ right := by
  intro fuel
  induction fuel with
  | zero =>
    intro left right i hf hi
    rw [findFirstA2bAux.eq_def, dif_neg (by omega : ¬left ≤ right)] at hi
    cases hi
  | succ fuel IH =>
    intro left right i hf hi
    by_cases hle : left ≤ right
    · rw [findFirstA2bAux.eq_def, dif_pos hle] at hi
      dsimp only at hi
      have hmid1 : left ≤ left + (right - left) / 2 := Nat.le_add_right ..
      have hmid2 : left + (right - left) / 2 ≤ right := by
        have hd2 : (right - left) / 2 ≤ right - left := Nat.div_le_self ..
        omega
      set mid := left + (right - left) / 2 with hmiddef
      by_cases hA : binIdAt bins mid ≤ active
      · by_cases hA1 : mid = bins.length - 1 ∨ active < binIdAt bins (mid + 1)
        · rw [if_pos hA, if_pos hA1] at hi
          injection hi with hi
          omega
        · rw [if_pos hA, if_neg hA1] at hi
          exact IH (mid + 1) right i (by omega) hi
      · by_cases hB1 : mid = 0
        · rw [if_neg hA, if_pos hB1] at hi
          cases hi
        · rw [if_neg hA, if_neg hB1] at hi
          have := IH left (mid - 1) i (by omega) hi
          omega
    · rw [findFirstA2bAux.eq_def, dif_neg hle] at hi
      cases hi

theorem findFirstB2aAux_index_le (bins : List Bin) (active : Int) :
    ∀ fuel left right i, right + 1 - left ≤ fuel →
      (findFirstB2aAux bins active left right).1 = some i → i ≤ right := by
  intro fuel
  induction fuel with
  | zero =>
    intro left right i hf hi
    rw [findFirstB2aAux.eq_def, dif_neg (by omega : ¬left ≤ right)] at hi
    cases hi
  | succ fuel IH =>
    intro left right i hf hi
    by_cases hle : left ≤ right
    · rw [findFirstB2aAux.eq_def, dif_pos hle] at hi
      dsimp only at hi
      have hmid1 : left ≤ left + (right - left) / 2 := Nat.le_add_right ..
      have hmid2 : left + (right - left) / 2 ≤ right := by
        have hd2 : (right - left) / 2 ≤ right - left := Nat.div_le_self ..
        omega
      set mid := left + (right - left) / 2 with hmiddef
      by_cases hB : active < binIdAt bins mid
      · by_cases hB1 : mid = 0 ∨ binIdAt bins (mid - 1) ≤ active
        · rw [if_pos hB, if_pos hB1] at hi
          injection hi with hi
          omega
        · rw [if_pos hB, if_neg hB1] at hi
          have := IH left (mid - 1) i (by omega) hi
          omega
      · rw [if_neg hB] at hi
        exact IH (mid + 1) right i (by omega) hi
    · rw [findFirstB2aAux.eq_def, dif_neg hle] at hi
      cases hi

theorem swapLoop_steps :
  ∀ (self : Pool) (a2b bai : Bool) (pfr : Nat) (opIdx : Option Nat)
    (remaining : Nat) (res : SwapResult) (acc : Nat)
    (p2 : Pool) (res2 : SwapResult) (acc2 rem2 : Nat),
    self.swapLoop a2b bai pfr opIdx remaining res acc = .ok (p2, res2, acc2, rem2) →
    self.bins.Pairwise (fun b1 b2 => b1.id < b2.id) →
    (∀ i, opIdx = some i → i < self.bins.length) →
    ∃ L, res2.steps = res.steps ++ L ∧
      L.length ≤ idxBound a2b opIdx self.bins.length ∧
      (∀ b ∈ L, ∃ k, k < self.bins.length ∧ inIdxRange a2b opIdx k ∧
        b.bin_id = binIdAt self.bins k) ∧
      (L.map BinSwap.bin_id).Pairwise (fun x y => x ≠ y) := by
  intro self a2b bai pfr opIdx remaining res acc
  induction self, a2b, bai, pfr, opIdx, remaining, res, acc using Pool.swapLoop.induct with
  | case1 self a2b bai pfr opIdx res acc =>
    intro p2 res2 acc2 rem2 hok hsorted hidx
    rw [Pool.swapLoop.eq_def] at hok
    simp only [reduceIte] at hok
    injection hok with hok
    injection hok with h1 hok
    injection hok with h2 hok
    injection hok with h3 h4
    subst h2
    exact ⟨[], by simp, Nat.zero_le _,
      fun b hb => absurd hb (List.not_mem_nil b), List.Pairwise.nil⟩
  | case2 self a2b bai pfr remaining res acc h0 =>
    intro p2 res2 acc2 rem2 hok hsorted hidx
    rw [Pool.swapLoop.eq_def] at hok
    rw [if_neg h0] at hok
    dsimp only at hok
    injection hok with hok
    injection hok with h1 hok
    injection hok with h2 hok
    injection hok with h3 h4
    subst h2
    exact ⟨[], by simp, Nat.zero_le _,
      fun b hb => absurd hb (List.not_mem_nil b), List.Pairwise.nil⟩
  | case3 self a2b bai pfr remaining res acc h0 r e hvol =>
    intro p2 res2 acc2 rem2 hok hsorted hidx
    rw [Pool.swapLoop.eq_def] at hok
    rw [if_neg h0] at hok
    dsimp only at hok
    rw [hvol] at hok
    cases hok
  | case4 self a2b bai pfr remaining res acc h0 r p1 hvol e hfee =>
    intro p2 res2 acc2 rem2 hok hsorted hidx
    rw [Pool.swapLoop.eq_def] at hok
    rw [if_neg h0] at hok
    dsimp only at hok
    rw [hvol] at hok
    dsimp only at hok
    rw [hfee] at hok
    cases hok
  | case5 self a2b bai pfr remaining res acc h0 r p1 hvol fee_rate dy hfee cur_bin e hswap =>
    intro p2 res2 acc2 rem2 hok hsorted hidx
    rw [Pool.swapLoop.eq_def] at hok
    rw [if_neg h0] at hok
    dsimp only at hok
    rw [hvol] at hok
    dsimp only at hok
    rw [hfee] at hok
    dsimp only at hok
    rw [dite_eq_ite] at hswap
    rw [hswap] at hok
    cases hok
  | case6 self a2b bai pfr remaining res acc h0 r next_idx p1 hvol fee_rate dy hfee cur_bin
      new_bin amount_in amount_out fee bpf hswap p2x step_result remaining2 acc2x result2 p3 IH =>
    intro p2 res2 acc2 rem2 hok hsorted hidx
    rw [Pool.swapLoop.eq_def] at hok
    rw [if_neg h0] at hok
    dsimp only at hok
    rw [hvol] at hok
    dsimp only at hok
    rw [hfee] at hok
    dsimp only at hok
    rw [dite_eq_ite] at hswap
    rw [hswap] at hok
    dsimp only at hok
    have hr_lt : r < self.bins.length := hidx r rfl
    have hp1bins : p1.bins = self.bins := update_volatility_accumulator_bins hvol
    have hcurid : cur_bin.id = binIdAt self.bins r := by
      show (p1.bins.getD r default).id = _
      rw [hp1bins]
      rfl
    have hnewid : new_bin.id = binIdAt self.bins r := by
      have hid2 : new_bin.id = cur_bin.id := by
        by_cases hbai : bai = true
        · rw [if_pos hbai] at hswap
          exact swap_in_preserves_id hswap
        · rw [if_neg hbai] at hswap
          exact swap_out_preserves_id hswap
      rw [hid2, hcurid]
    have hp3bins : p3.bins = p1.bins.set r new_bin := by
      simp only [p3]
      split
      · clear_value next_idx
        rcases next_idx with _ | ni <;> rfl
      · rfl
    have hidAt : ∀ k, binIdAt p3.bins k = binIdAt self.bins k := by
      intro k
      rw [hp3bins, hp1bins]
      exact binIdAt_set_of_id_eq hnewid k
    have hlen3 : p3.bins.length = self.bins.length := by
      rw [hp3bins, List.length_set, hp1bins]
    have hsorted3 : p3.bins.Pairwise (fun b1 b2 => b1.id < b2.id) := by
      rw [hp3bins, hp1bins]
      exact pairwise_id_set hsorted hnewid
    have hidx3 : ∀ i, next_idx = some i → i < p3.bins.length := by
      intro i hi
      rw [hlen3]
      exact nextBinIdx_lt hr_lt hi
    obtain ⟨L, hL1, hL2, hL3, hL4⟩ := IH p2 res2 acc2 rem2 hok hsorted3 hidx3
    have hL2b : L.length ≤ idxBound a2b (nextBinIdx a2b r self.bins.length) self.bins.length := by
      rw [hlen3] at hL2
      exact hL2
    refine ⟨step_result :: L, ?_, ?_, ?_, ?_⟩
    · rw [hL1]
      show (res.update_swap_result step_result).steps ++ L = _
      simp [SwapResult.update_swap_result]
    · show L.length + 1 ≤ idxBound a2b (some r) self.bins.length
      have hbn := idxBound_next a2b r self.bins.length hr_lt
      omega
    · intro b hb
      rcases List.mem_cons.mp hb with rfl | hbL
      · exact ⟨r, hr_lt, inIdxRange_self, hcurid⟩
      · obtain ⟨k, hk1, hk2, hk3⟩ := hL3 b hbL
        rw [hlen3] at hk1
        rw [hidAt k] at hk3
        exact ⟨k, hk1, inIdxRange_of_next hk2, hk3⟩
    · simp only [List.map_cons]
      rw [List.pairwise_cons]
      refine ⟨?_, hL4⟩
      intro y hy
      obtain ⟨b, hbL, rfl⟩ := List.mem_map.mp hy
      obtain ⟨k, hk1, hk2, hk3⟩ := hL3 b hbL
      rw [hlen3] at hk1
      rw [hidAt k] at hk3
      have hkr := inIdxRange_next hk2
      show step_result.bin_id ≠ b.bin_id
      have hsid : step_result.bin_id = binIdAt self.bins r := hcurid
      rw [hsid, hk3]
      cases a2b with
      | true =>
        simp only [reduceIte] at hkr
        exact (binIdAt_lt_of_sorted hsorted hkr hr_lt).ne.symm
      | false =>
        simp only [Bool.false_eq_true, reduceIte] at hkr
        exact (binIdAt_lt_of_sorted hsorted hkr hk1).ne

theorem find_first_index_lt {p : Pool} {active : Int} {a2b : Bool} {i : Nat}
    (h : (p.find_first_swap_bin_index active a2b).1 = some i) :
    i < p.bins.length := by
  unfold Pool.find_first_swap_bin_index at h
  by_cases hemp : p.bins.isEmpty = true
  · rw [if_pos hemp] at h
    cases h
  · have hlen : 0 < p.bins.length := by
      cases hb : p.bins with
      | nil =>
        rw [hb] at hemp
        exact absurd rfl hemp
      | cons a l => simp
    rw [if_neg hemp] at h
    cases a2b with
    | true =>
      simp only [reduceIte] at h
      have hle := findFirstA2bAux_index_le p.bins active
        p.bins.length 0 (p.bins.length - 1) i (by omega) h
      omega
    | false =>
      simp only [Bool.false_eq_true, reduceIte] at h
      have hle := findFirstB2aAux_index_le p.bins active
        p.bins.length 0 (p.bins.length - 1) i (by omega) h
      omega

/-- C4: on a pool whose bin list is sorted strictly ascending by id, one
successful swap call produces at most one step per bin, never visits the
same bin id twice, and the loop terminates (swapLoop is a total function
whose index strictly advances, so this theorem also certifies
termination). -/
theorem c4_steps_bounded (self : Pool) (amount : Nat) (a2b by_amount_in : Bool)
    (current_timestamp : Nat) (pm : Pool) (res : SwapResult) (acc rem : Nat)
    (hsorted : self.bins.Pairwise (fun b1 b2 => b1.id < b2.id))
    (haux : self.swap_in_pool_aux amount a2b by_amount_in current_timestamp =
      .ok (pm, res, acc, rem)) :
    res.steps.length ≤ self.bins.length ∧
    (res.steps.map BinSwap.bin_id).Nodup := by
  unfold Pool.swap_in_pool_aux at haux
  rcases href : self.update_references (toI64 current_timestamp) with e | p1
  · rw [href] at haux
    cases haux
  · rw [href] at haux
    dsimp only at haux
    have hbins : p1.bins = self.bins := update_references_bins href
    have hsorted1 : p1.bins.Pairwise (fun b1 b2 => b1.id < b2.id) := by
      rw [hbins]
      exact hsorted
    have hidx : ∀ i, (p1.find_first_swap_bin_index p1.active_id a2b).1 = some i →
        i < p1.bins.length := fun i hi => find_first_index_lt hi
    obtain ⟨L, hL1, hL2, hL3, hL4⟩ := swapLoop_steps p1 a2b by_amount_in
      p1.v_parameters.bin_step_config.protocol_fee_rate
      (p1.find_first_swap_bin_index p1.active_id a2b).1 amount
      SwapResult.default0 0 pm res acc rem haux hsorted1 hidx
    have hsteps : res.steps = L := by
      rw [hL1]
      rfl
    have hbound : idxBound a2b (p1.find_first_swap_bin_index p1.active_id a2b).1
        p1.bins.length ≤ p1.bins.length := by
      rcases hfi : (p1.find_first_swap_bin_index p1.active_id a2b).1 with _ | i
      · simp [idxBound]
      · have hilt := find_first_index_lt hfi
        cases a2b with
        | true =>
          simp only [idxBound, reduceIte]
          omega
        | false =>
          simp only [idxBound, Bool.false_eq_true, reduceIte]
          omega
    constructor
    · rw [hsteps]
      rw [hbins] at hL2 hbound
      omega
    · rw [hsteps]
      exact hL4

/-- C4 witness: the pool.rs unit-test swap takes one step over two bins with
no repeated bin id. -/
theorem c4_steps_bounded_witness :
    exampleLoopResult.steps.length ≤ examplePool.bins.length ∧
    (exampleLoopResult.steps.map BinSwap.bin_id).Nodup :=
  c4_steps_bounded examplePool 200000 true true 10 examplePoolMid exampleLoopResult 1 0
    (by decide)
    (by
      simp +decide [Pool.swap_in_pool_aux, Pool.update_references, toI64, wrapI64,
        Pool.find_first_swap_bin_index, findFirstA2bAux, binIdAt, Pool.swapLoop, nextBinIdx,
        Pool.update_volatility_accumulator, Pool.get_total_fee, Pool.get_variable_fee,
        Pool.compute_variable_fee, Bin.swap_exact_amount_in, calculate_fee_inclusive,
        calculate_fee_exclusive, calculate_amount_in, calculate_amount_out, mul_div, wrap64,
        ONE, FEE_PRECISION, MAX_FEE_RATE, BASIS_POINT_MAX, SwapResult.update_swap_result,
        SwapResult.default0, examplePool, examplePoolMid, exampleLoopResult, exampleConfig])

end DlmmSwap
